import Mathlib

/-!
Verification development for the inco directive-to-shadow transformer.

Source files are embedded shallowly: Go strings become `List Char`, the
string-scanning loops become structural recursions over the character list,
and the byte/index arithmetic of the originals is kept through explicit
`take`/`drop`/`getElem?` operations.  Library calls whose results the code
merely branches on (go/types evaluation, go/parser expression parsing,
filepath.Rel) are passed in as explicit oracle arguments.
-/

namespace Inco

/-- Characters removed by Go strings.TrimSpace (the ASCII white-space set;
the sources only ever see ASCII here). -/
def isSpaceChar (c : Char) : Bool :=
  c = ' ' || c = '\t' || c = '\n' || c = '\r' || c = '\x0b' || c = '\x0c'

/-- Left trim of white space. -/
def trimL (s : List Char) : List Char := s.dropWhile isSpaceChar

/-- Right trim of white space. -/
def trimR (s : List Char) : List Char := (s.reverse.dropWhile isSpaceChar).reverse

/-- Go strings.TrimSpace. -/
def trimSpace (s : List Char) : List Char := trimR (trimL s)

/-- Go strings.Index: position of the first occurrence of sub in s
(0 for an empty sub), none when absent. -/
def strIndex (s sub : List Char) : Option Nat :=
  match s with
  | [] => if sub.isEmpty then some 0 else none
  | _ :: t =>
    if sub.isPrefixOf s then some 0
    else (strIndex t sub).map (· + 1)

/-- Go strings.LastIndex: position of the rightmost occurrence of sub in s
(length s for an empty sub), none when absent. -/
def strLastIndex (s sub : List Char) : Option Nat :=
  match s with
  | [] => if sub.isEmpty then some 0 else none
  | _ :: t =>
    match strLastIndex t sub with
    | some i => some (i + 1)
    | none => if sub.isPrefixOf s then some 0 else none

/-- Decimal rendering of a line number (fmt %d). -/
def natChars (n : Nat) : List Char := (Nat.repr n).toList

/-- One character of strconv.Quote / fmt %q output.  The generated messages
contain only printable ASCII, so only the escapes that can actually occur
are modelled. -/
def quoteChar (c : Char) : List Char :=
  if c = '"' then ['\\', '"']
  else if c = '\\' then ['\\', '\\']
  else if c = '\n' then ['\\', 'n']
  else if c = '\t' then ['\\', 't']
  else if c = '\r' then ['\\', 'r']
  else [c]

/-- strconv.Quote / fmt %q on a message string. -/
def goQuote (s : List Char) : List Char := '"' :: (s.map quoteChar).flatten ++ ['"']

end Inco

namespace Inco.Lexer

/-! Embedding of src/internal/inco/directive.go. -/

/-- ActionKind (directive.go): panic is the only action. -/
inductive ActionKind where
  | panicAct
deriving DecidableEq, Repr

/-- DirectiveKind (directive.go): require is standalone, must and ensure
are inline. -/
inductive DirectiveKind where
  | require
  | must
  | ensure
deriving DecidableEq, Repr

/-- Directive (directive.go): parsed form of one comment. -/
structure Directive where
  kind : DirectiveKind
  action : ActionKind := .panicAct
  actionArgs : List (List Char) := []
  expr : List Char := []
deriving DecidableEq, Repr

/-- stripComment (directive.go).  The Go code slices s[2 : len(s)-2] for a
block comment; when the trimmed comment is exactly the three characters
slash-star-slash both affix tests pass but the slice bounds are inverted and
the Go runtime panics, which the embedding surfaces as an error value. -/
def stripComment (s0 : List Char) : Except Unit (List Char) :=
  let s := trimSpace s0
  if "//".toList.isPrefixOf s then .ok (trimSpace (s.drop 2))
  else if "/*".toList.isPrefixOf s && "*/".toList.isSuffixOf s then
    if 4 ≤ s.length then .ok (trimSpace ((s.take (s.length - 2)).drop 2))
    else .error ()
  else .ok []

/-- Scanning loop of parseActionArgs (directive.go).  The Go loop walks the
string with an index, a paren depth, and an inner loop that skips
double-quoted literals in which a backslash skips the following character;
here the inner loop is the pair of states inStr/esc, and acc collects
s[1:i], the characters between the outer parentheses.  Returns the inner
text and the remainder after the closing paren, or none when the parens
never balance (Go ok = false). -/
def argsScan : List Char → Int → Bool → Bool → List Char → Option (List Char × List Char)
  | [], _, _, _, _ => none
  | c :: t, depth, inStr, esc, acc =>
    if inStr then
      if esc then argsScan t depth true false (acc ++ [c])
      else if c = '"' then argsScan t depth false false (acc ++ [c])
      else if c = '\\' then argsScan t depth true true (acc ++ [c])
      else argsScan t depth true false (acc ++ [c])
    else
      if c = '(' then argsScan t (depth + 1) false false (acc ++ [c])
      else if c = ')' then
        if depth = 1 then some (acc, t)
        else argsScan t (depth - 1) false false (acc ++ [c])
      else if c = '"' then argsScan t depth true false (acc ++ [c])
      else argsScan t depth false false (acc ++ [c])

/-- splitTopLevel (directive.go): split by top-level commas, respecting
nested parens, brackets, braces and double-quoted strings.  prev is the
previous character (Go s[i-1], none at i = 0), esc marks a character being
skipped by the i++ in the inStr case, cur is s[start:i]. -/
def stl : List Char → Option Char → Int → Bool → Bool → List Char → List (List Char) →
    List (List Char)
  | [], _, _, _, _, cur, acc =>
    acc ++ (if trimSpace cur ≠ [] then [trimSpace cur] else [])
  | c :: t, prev, depth, inStr, esc, cur, acc =>
    if esc then stl t (some c) depth inStr false (cur ++ [c]) acc
    else if c = '"' && !inStr then stl t (some c) depth true false (cur ++ [c]) acc
    else if c = '"' && inStr && prev ≠ some '\\' then
      stl t (some c) depth false false (cur ++ [c]) acc
    else if inStr then
      if c = '\\' then stl t (some c) depth true true (cur ++ [c]) acc
      else stl t (some c) depth true false (cur ++ [c]) acc
    else if c = '(' || c = '[' || c = '\x7b' then
      stl t (some c) (depth + 1) inStr false (cur ++ [c]) acc
    else if c = ')' || c = ']' || c = '\x7d' then
      stl t (some c) (depth - 1) inStr false (cur ++ [c]) acc
    else if c = ',' && depth = 0 then
      stl t (some c) depth inStr false [] (acc ++ [trimSpace cur])
    else stl t (some c) depth inStr false (cur ++ [c]) acc

/-- splitTopLevel (directive.go) entry point. -/
def splitTopLevel (s : List Char) : List (List Char) := stl s none 0 false false [] []

/-- parseActionArgs (directive.go): parse a parenthesised argument list. -/
def parseActionArgs (s : List Char) : Option (List (List Char) × List Char) :=
  match s with
  | '(' :: t =>
    match argsScan t 1 false false [] with
    | some (inner, rest) => some (splitTopLevel inner, rest)
    | none => none
  | _ => none

/-- The needle of parseTrailingPanic's LastIndex search. -/
def needleChars : List Char := " panic(".toList

/-- parseTrailingPanic (directive.go): strip an optional trailing
panic action off a @require body.  Returns the expression part and the
action arguments that were set on the directive. -/
def parseTrailingPanic (rest0 : List Char) : List Char × List (List Char) :=
  let rest := trimSpace rest0
  if rest = [] then ([], [])
  else
    let viaLast : Option (List Char × List (List Char)) :=
      match strLastIndex rest needleChars with
      | some idx =>
        match parseActionArgs (rest.drop (idx + 6)) with
        | some (args, remaining) =>
          if trimSpace remaining = [] then some (trimSpace (rest.take idx), args)
          else none
        | none => none
      | none => none
    match viaLast with
    | some r => r
    | none =>
      if " panic".toList.isSuffixOf rest then (trimSpace (rest.take (rest.length - 6)), [])
      else (rest, [])

/-- parsePanicAction (directive.go): parse "panic" with optional args from
the front of a @must/@ensure body; returns the action args that get set
(empty when none parse, mirroring the directive keeping its defaults). -/
def parsePanicAction (rest : List Char) : List (List Char) :=
  if !("panic".toList.isPrefixOf rest) then []
  else
    let after := rest.drop 5
    if after ≠ [] ∧ after.head? ≠ some ' ' ∧ after.head? ≠ some '\t' ∧
        after.head? ≠ some '(' then []
    else
      let after := trimSpace after
      if "(".toList.isPrefixOf after then
        match parseActionArgs after with
        | some (args, _) => args
        | none => []
      else []

/-- The @must/@ensure tail of ParseDirective (directive.go): empty body
means a bare directive, otherwise parsePanicAction fills the args. -/
def mkInline (k : DirectiveKind) (rest : List Char) : Directive :=
  if rest = [] then { kind := k }
  else { kind := k, actionArgs := parsePanicAction rest }

/-- The keyword dispatch of ParseDirective (directive.go) on the stripped
comment content: empty content and unrecognized keywords yield Go nil, a
require with an empty body or an empty extracted expression yields nil,
everything else yields a directive. -/
def parseBody (s : List Char) : Option Directive :=
  if s = [] then none
  else if "@require".toList.isPrefixOf s then
    if trimSpace (s.drop 8) = [] then none
    else if (parseTrailingPanic (trimSpace (s.drop 8))).1 = [] then none
    else
      some ⟨.require, .panicAct,
        (parseTrailingPanic (trimSpace (s.drop 8))).2,
        (parseTrailingPanic (trimSpace (s.drop 8))).1⟩
  else if "@must".toList.isPrefixOf s then
    some (mkInline .must (trimSpace (s.drop 5)))
  else if "@ensure".toList.isPrefixOf s then
    some (mkInline .ensure (trimSpace (s.drop 7)))
  else none

/-- ParseDirective (directive.go).  ok none is Go nil; error is a runtime
panic inside stripComment. -/
def parseDirective (comment : List Char) : Except Unit (Option Directive) :=
  match stripComment comment with
  | .error e => .error e
  | .ok s => .ok (parseBody s)

end Inco.Lexer

namespace Inco.Eng

/-! Embedding of src/internal/inco/engine.go (the text-rewriting engine). -/

open Inco.Lexer

/-- Classification outcome of processFile step 3 (engine.go lines 179 to
201): a directive lands in the standalone map, the inline map, or neither. -/
inductive DirClass where
  | standalone
  | inline
  | dropped
deriving DecidableEq, Repr

/-- Host-line test of processFile (engine.go line 189): the trimmed line
starts with a line- or block-comment delimiter. -/
def isStandaloneLine (line : List Char) : Bool :=
  let trimmed := trimSpace line
  "//".toList.isPrefixOf trimmed || "/*".toList.isPrefixOf trimmed

/-- Classification switch of processFile (engine.go lines 191 to 200):
a require directive is kept only on a comment-only line, a must or ensure
directive only on a code line; every other combination is dropped. -/
def classifyDirective (k : DirectiveKind) (line : List Char) : DirClass :=
  match k with
  | .require => if isStandaloneLine line then .standalone else .dropped
  | .must | .ensure => if !isStandaloneLine line then .inline else .dropped

/-- extractIndent (engine.go): leading spaces and tabs of a line. -/
def extractIndent (line : List Char) : List Char :=
  line.takeWhile (fun c => c = ' ' || c = '\t')

/-- Go strings.TrimRight for spaces and tabs. -/
def trimRightTabsSpaces (s : List Char) : List Char :=
  (s.reverse.dropWhile (fun c => c = ' ' || c = '\t')).reverse

/-- stripInlineComment (engine.go): remove the inline directive comment,
trying the three prefixes in order. -/
def stripInlineComment (line keyword : List Char) : List Char :=
  match strIndex line ("// ".toList ++ keyword) with
  | some idx => trimRightTabsSpaces (line.take idx)
  | none =>
    match strIndex line ("//".toList ++ keyword) with
    | some idx => trimRightTabsSpaces (line.take idx)
    | none =>
      match strIndex line ("/* ".toList ++ keyword) with
      | some idx => trimRightTabsSpaces (line.take idx)
      | none => line

/-- isIdentChar (engine.go). -/
def isIdentChar (b : Char) : Bool :=
  ('a' ≤ b && b ≤ 'z') || ('A' ≤ b && b ≤ 'Z') || ('0' ≤ b && b ≤ '9') || b = '_'

/-- The loop condition of replaceLastBlank (engine.go lines 339 to 346) at
index i: a standalone blank identifier. -/
def blankAt (code : List Char) (i : Nat) : Bool :=
  code[i]? = some '_' &&
  (decide (i = 0) || !((code[i-1]?).any isIdentChar)) &&
  (decide (i = code.length - 1) || !((code[i+1]?).any isIdentChar))

/-- Index found by replaceLastBlank's right-to-left scan: the largest
standalone-blank position. -/
def findLastBlank (code : List Char) : Option Nat :=
  ((List.range code.length).filter (fun i => blankAt code i)).getLast?

/-- replaceLastBlank (engine.go): replace the last standalone blank
identifier with the replacement text. -/
def replaceLastBlank (code replacement : List Char) : List Char :=
  match findLastBlank code with
  | some i => code.take i ++ replacement ++ code.drop (i + 1)
  | none => code

/-- Recursion of substituteBlank (engine.go) carrying the previous
character (Go expr[i-1], none at i = 0); the next character is the head of
the remainder. -/
def subAux (varName : List Char) : List Char → Option Char → List Char
  | [], _ => []
  | c :: t, prev =>
    let prevOk := match prev with
      | none => true
      | some p => !isIdentChar p
    let nextOk := match t.head? with
      | none => true
      | some nx => !isIdentChar nx
    if c = '_' && prevOk && nextOk then varName ++ subAux varName t (some c)
    else c :: subAux varName t (some c)

/-- substituteBlank (engine.go): replace all standalone blanks in action
arguments with the synthetic variable name. -/
def substituteBlank (expr varName : List Char) : List Char := subAux varName expr none

/-- Keyword chosen by rewriteInlineLine (engine.go lines 284 to 289). -/
def keywordOf (d : Directive) : List Char :=
  if d.kind = .ensure then "@ensure".toList else "@must".toList

/-- Synthetic variable chosen by rewriteInlineLine (engine.go). -/
def varNameOf (d : Directive) : List Char :=
  if d.kind = .ensure then "__inco_ok".toList else "__inco_err".toList

/-- rewriteInlineLine (engine.go): strip the inline comment and replace the
last blank with the synthetic name; returns (varName, rewritten). -/
def rewriteInlineLine (line : List Char) (d : Directive) : List Char × List Char :=
  let codePart := stripInlineComment line (keywordOf d)
  (varNameOf d, replaceLastBlank codePart (varNameOf d))

/-- buildInlinePanicBody (engine.go).  relPath stands for the result of the
filepath.Rel call on (Root, path). -/
def buildInlinePanicBody (d : Directive) (relPath : List Char) (line : Nat)
    (varName : List Char) : List Char :=
  match d.actionArgs with
  | a :: _ => "panic(".toList ++ substituteBlank a varName ++ [')']
  | [] =>
    if d.kind = .must then "panic(".toList ++ varName ++ [')']
    else
      "panic(".toList ++
        goQuote ("ensure violation at ".toList ++ relPath ++ [':'] ++ natChars line) ++ [')']

/-- generateInlineIfBlock (engine.go): the injected check after an inline
directive line. -/
def generateInlineIfBlock (d : Directive) (indent relPath : List Char) (line : Nat)
    (varName : List Char) : List Char :=
  let cond := if d.kind = .must then varName ++ " != nil".toList else '!' :: varName
  let body := buildInlinePanicBody d relPath line varName
  indent ++ "if ".toList ++ cond ++ " \x7b\n".toList ++ indent ++ ['\t'] ++ body ++
    ['\n'] ++ indent ++ "\x7d".toList

/-- A //line compiler directive as emitted by processFile. -/
def lineDirective (indent path : List Char) (n : Nat) : List Char :=
  indent ++ "//line ".toList ++ path ++ [':'] ++ natChars n

/-- The inline branch of processFile (engine.go lines 220 to 227): emit a
//line directive, the rewritten host line, and the injected check. -/
def emitInline (d : Directive) (path relPath : List Char) (lineNum : Nat)
    (line : List Char) : List (List Char) :=
  let indent := extractIndent line
  let vr := rewriteInlineLine line d
  [lineDirective indent path lineNum, vr.2,
    generateInlineIfBlock d indent relPath lineNum vr.1]

end Inco.Eng

namespace Inco.V1

/-! Embedding of src/unnamed/part_001, the engine variant with four
directive kinds (require and ensure standalone, must and expect inline) and
declaration promotion for synthetic variables.  Its copies of
stripInlineComment, replaceLastBlank, substituteBlank, isIdentChar and
extractIndent are character-for-character identical to engine.go, so the
Inco.Eng embeddings of those helpers are reused. -/

open Inco.Eng (extractIndent stripInlineComment replaceLastBlank substituteBlank
  isStandaloneLine lineDirective)

/-- DirectiveKind of the part_001 variant. -/
inductive K4 where
  | require
  | ensure
  | must
  | expect
deriving DecidableEq, Repr

/-- Directive of the part_001 variant (fields used there: Kind, ActionArgs,
Expr). -/
structure Directive4 where
  kind : K4
  actionArgs : List (List Char) := []
  expr : List Char := []
deriving DecidableEq, Repr

/-- Length of the whitespace run that promoteAssign's forward scan skips,
starting at position p (part_001 lines 363 to 365). -/
def wsScanLen (code : List Char) (p : Nat) : Nat :=
  ((code.drop p).takeWhile (fun c => c = ' ' || c = '\t')).length

/-- promoteAssign (part_001 lines 356 to 376): find the variable, scan past
whitespace, and promote a plain assign to a declare-and-assign unless the
operator is already a declare-and-assign or an equality test. -/
def promoteAssign (code varName : List Char) : List Char :=
  match strIndex code varName with
  | none => code
  | some idx =>
    let pos := idx + varName.length + wsScanLen code (idx + varName.length)
    if code[pos]? = some '=' ∧ ¬code[pos+1]? = some '=' ∧
        (pos = 0 ∨ ¬code[pos-1]? = some ':') then
      code.take pos ++ [':'] ++ code.drop pos
    else code

/-- Keyword chosen by rewriteInlineLine (part_001 lines 335 to 340). -/
def keyword4 (d : Directive4) : List Char :=
  if d.kind = .expect then "@expect".toList else "@must".toList

/-- Synthetic variable chosen by rewriteInlineLine (part_001). -/
def varName4 (d : Directive4) : List Char :=
  if d.kind = .expect then "__inco_ok".toList else "__inco_err".toList

/-- The declared-map step of rewriteInlineLine (part_001 lines 343 to 347):
first occurrence of the synthetic name promotes and records it. -/
def declStep (declared : List (List Char)) (v : List Char) :
    Bool × List (List Char) :=
  if v ∉ declared then (true, v :: declared) else (false, declared)

/-- rewriteInlineLine (part_001 lines 334 to 349): returns the synthetic
variable, the rewritten line, and the updated declared set. -/
def rewriteInline4 (line : List Char) (d : Directive4)
    (declared : List (List Char)) : List Char × List Char × List (List Char) :=
  let varName := varName4 d
  let codePart := stripInlineComment line (keyword4 d)
  let rewritten := replaceLastBlank codePart varName
  let pr := declStep declared varName
  if pr.1 then (varName, promoteAssign rewritten varName, pr.2)
  else (varName, rewritten, pr.2)

/-- scopeAt's fold (part_001 lines 203 to 213): pick the function scope
containing the line whose body starts last; state is (best index, start
line of the best scope), with -1 for no scope. -/
def scopeAtAux (ln : Nat) : List (Nat × Nat) → Nat → Int × Nat → Int × Nat
  | [], _, st => st
  | (s, e) :: rest, i, st =>
    let st' := if s ≤ ln ∧ ln ≤ e ∧ (st.1 = -1 ∨ st.2 < s) then ((i : Int), s) else st
    scopeAtAux ln rest (i + 1) st'

/-- scopeAt (part_001): index of the innermost function scope containing a
line, -1 when the line is outside every function body. -/
def scopeAt (scopes : List (Nat × Nat)) (ln : Nat) : Int :=
  (scopeAtAux ln scopes 0 (-1, 0)).1

/-- The reset step at the top of the inline branch (part_001 lines 236 to
240): crossing to a different innermost scope clears the declared set. -/
def inlineStep (declared : List (List Char)) (lastScope scope : Int) :
    List (List Char) × Int :=
  if scope ≠ lastScope then ([], scope) else (declared, lastScope)

/-- buildPanicBody (part_001 lines 298 to 308). -/
def buildPanicBody4 (d : Directive4) (relPath : List Char) (line : Nat) : List Char :=
  match d.actionArgs with
  | a :: _ => "panic(".toList ++ a ++ [')']
  | [] =>
    "panic(".toList ++
      goQuote ("require violation: ".toList ++ d.expr ++ " (at ".toList ++ relPath ++
        [':'] ++ natChars line ++ [')']) ++ [')']

/-- generateIfBlock (part_001 lines 275 to 279). -/
def generateIfBlock4 (d : Directive4) (indent relPath : List Char) (line : Nat) :
    List Char :=
  let cond := "!(".toList ++ d.expr ++ [')']
  let body := buildPanicBody4 d relPath line
  indent ++ "if ".toList ++ cond ++ " \x7b\n".toList ++ indent ++ ['\t'] ++ body ++
    ['\n'] ++ indent ++ "\x7d".toList

/-- buildEnsurePanicBody (part_001 lines 314 to 324). -/
def buildEnsurePanicBody (d : Directive4) (relPath : List Char) (line : Nat) :
    List Char :=
  match d.actionArgs with
  | a :: _ => "panic(".toList ++ a ++ [')']
  | [] =>
    "panic(".toList ++
      goQuote ("ensure violation: ".toList ++ d.expr ++ " (at ".toList ++ relPath ++
        [':'] ++ natChars line ++ [')']) ++ [')']

/-- generateDeferBlock (part_001 lines 288 to 292): the deferred check
injected for a standalone ensure. -/
def generateDeferBlock (d : Directive4) (indent relPath : List Char) (line : Nat) :
    List Char :=
  let cond := "!(".toList ++ d.expr ++ [')']
  let body := buildEnsurePanicBody d relPath line
  indent ++ "defer func() \x7b\n".toList ++ indent ++ "\tif ".toList ++ cond ++
    " \x7b\n".toList ++ indent ++ "\t\t".toList ++ body ++ ['\n'] ++ indent ++
    "\t\x7d\n".toList ++ indent ++ "\x7d()".toList

/-- buildInlinePanicBody (part_001 lines 393 to 406). -/
def buildInlinePanicBody4 (d : Directive4) (relPath : List Char) (line : Nat)
    (varName : List Char) : List Char :=
  match d.actionArgs with
  | a :: _ => "panic(".toList ++ substituteBlank a varName ++ [')']
  | [] =>
    if d.kind = .must then "panic(".toList ++ varName ++ [')']
    else
      "panic(".toList ++
        goQuote ("expect violation at ".toList ++ relPath ++ [':'] ++ natChars line) ++
        [')']

/-- generateInlineIfBlock (part_001 lines 385 to 389) with the
inlineCondFmt table inlined: must tests non-nil, expect tests falsity. -/
def generateInlineIfBlock4 (d : Directive4) (indent relPath : List Char)
    (line : Nat) (varName : List Char) : List Char :=
  let cond := if d.kind = .must then varName ++ " != nil".toList else '!' :: varName
  let body := buildInlinePanicBody4 d relPath line varName
  indent ++ "if ".toList ++ cond ++ " \x7b\n".toList ++ indent ++ ['\t'] ++ body ++
    ['\n'] ++ indent ++ "\x7d".toList

/-- Association-list lookup standing for the Go line-to-directive maps. -/
def lookupAL (al : List (Nat × Directive4)) (k : Nat) : Option Directive4 :=
  match al with
  | [] => none
  | (k', v) :: t => if k' = k then some v else lookupAL t k

/-- Classification loop of processFile (part_001 lines 157 to 179):
require and ensure are kept on comment-only lines, must and expect on code
lines; out-of-range line numbers are skipped. -/
def classifyAll (lines : List (List Char)) (dirs : List (Nat × Directive4)) :
    List (Nat × Directive4) × List (Nat × Directive4) :=
  dirs.foldl
    (fun acc p =>
      let lineNum := p.1
      if 1 ≤ lineNum ∧ lineNum ≤ lines.length then
        let isS := isStandaloneLine (lines.getD (lineNum - 1) [])
        match p.2.kind with
        | .require | .ensure => if isS then (acc.1 ++ [p], acc.2) else acc
        | .must | .expect => if !isS then (acc.1, acc.2 ++ [p]) else acc
      else acc)
    ([], [])

/-- Loop state of processFile step 4 (part_001 lines 217 to 220). -/
structure LoopSt where
  output : List (List Char)
  prevWasDirective : Bool
  declared : List (List Char)
  lastScope : Int
deriving DecidableEq, Repr

/-- One iteration of the emission loop (part_001 lines 222 to 256). -/
def emitLine (path relPath : List Char) (scopes : List (Nat × Nat))
    (standalone inl : List (Nat × Directive4)) (st : LoopSt)
    (item : Nat × List Char) : LoopSt :=
  let lineNum := item.1
  let line := item.2
  match lookupAL standalone lineNum with
  | some d =>
    let indent := extractIndent line
    let block :=
      if d.kind = .ensure then generateDeferBlock d indent relPath lineNum
      else generateIfBlock4 d indent relPath lineNum
    { output := st.output ++ [lineDirective indent path lineNum, block],
      prevWasDirective := true, declared := st.declared, lastScope := st.lastScope }
  | none =>
    match lookupAL inl lineNum with
    | some d =>
      let dl := inlineStep st.declared st.lastScope (scopeAt scopes lineNum)
      let indent := extractIndent line
      let r := rewriteInline4 line d dl.1
      { output := st.output ++ [lineDirective indent path lineNum, r.2.1,
          generateInlineIfBlock4 d indent relPath lineNum r.1],
        prevWasDirective := true, declared := r.2.2, lastScope := dl.2 }
    | none =>
      if st.prevWasDirective then
        { output := st.output ++ [lineDirective (extractIndent line) path lineNum, line],
          prevWasDirective := false, declared := st.declared, lastScope := st.lastScope }
      else
        { output := st.output ++ [line], prevWasDirective := st.prevWasDirective,
          declared := st.declared, lastScope := st.lastScope }

/-- The emission loop of processFile (part_001 step 4), folding over the
1-based numbered lines with the initial state of lines 217 to 220. -/
def emitLoop (path relPath : List Char) (scopes : List (Nat × Nat))
    (standalone inl : List (Nat × Directive4)) (lines : List (List Char)) :
    List (List Char) :=
  ((lines.enumFrom 1).foldl (emitLine path relPath scopes standalone inl)
      { output := [], prevWasDirective := false, declared := [], lastScope := -2 }).output

/-- processFile from classification on (part_001 lines 157 to 264): none
when both classified maps are empty (no shadow written), otherwise the
emitted shadow lines. -/
def processLines (path relPath : List Char) (scopes : List (Nat × Nat))
    (lines : List (List Char)) (dirs : List (Nat × Directive4)) :
    Option (List (List Char)) :=
  let cl := classifyAll lines dirs
  if cl.1 = [] ∧ cl.2 = [] then none
  else some (emitLoop path relPath scopes cl.1 cl.2 lines)

/-- The declared/lastScope trace of the loop restricted to inline directive
lines: for each (innermost scope, synthetic name) pair in order, whether
the loop promoted that mention (first mention in its scope run).  Built
from the same inlineStep and declStep the loop uses. -/
def inlineTraceAux : List (Int × List Char) → List (List Char) → Int → List Bool
  | [], _, _ => []
  | (sc, v) :: rest, declared, lastScope =>
    let dl := inlineStep declared lastScope sc
    let pr := declStep dl.1 v
    pr.1 :: inlineTraceAux rest pr.2 sc

/-- Promotion trace starting from the loop's initial state (empty declared
set, sentinel last scope -2). -/
def inlineTrace (seq : List (Int × List Char)) : List Bool :=
  inlineTraceAux seq [] (-2)

/-- The (declared, lastScope) state after a sequence of inline directive
lines, built from the same step functions as the loop. -/
def traceState : List (Int × List Char) → List (List Char) → Int →
    List (List Char) × Int
  | [], d, ls => (d, ls)
  | (sc, v) :: rest, d, ls =>
    traceState rest (declStep (inlineStep d ls sc).1 v).2 sc

end Inco.V1

namespace Inco.TC

/-! Embedding of src/internal/inco/typecheck.go, the AST-based engine
variant: type-aware zero checks, require/ensure/must generation, and the
statement-list injection pass.  go/types values are modelled by the GoType
tree below; the go/types evaluator, the expression parser and the variable
resolver are oracle parameters. -/

/-- Basic kinds distinguished by the BasicInfo flag tests (IsString,
IsInteger, IsFloat, IsComplex, IsBoolean); bOther is a basic type with none
of those flags. -/
inductive BasicKind where
  | bString
  | bInt
  | bFloat
  | bCplx
  | bBool
  | bOther
deriving DecidableEq, Repr

/-- Model of go/types.Type restricted to what the generator inspects:
the underlying-category switch, comparability, the Named and TypeParam
casts, and element types for composite-literal printing.  A type parameter
carries one flag for isTypeParamComparable's conjunction (Constraint not
nil and types.Comparable).  A named type carries its name, its package as
(name, path) with none for universe scope, and its underlying type. -/
inductive GoType where
  | basic (k : BasicKind) (name : List Char)
  | pointer (elem : GoType)
  | slice (elem : GoType)
  | array (len : Nat) (elem : GoType)
  | mapT (key elem : GoType)
  | chanT (elem : GoType)
  | signature
  | iface
  | structT (cmp : Bool)
  | typeParam (cmp : Bool) (name : List Char)
  | named (name : List Char) (pkg : Option (List Char × List Char)) (under : GoType)
deriving DecidableEq, Repr

/-- go/types Type.Underlying: unwrap named types. -/
def underlying : GoType → GoType
  | .named _ _ u => underlying u
  | t => t

/-- types.Comparable.  Struct comparability is summarized by the struct's
flag; an array is comparable when its element type is. -/
def goComparable : GoType → Bool
  | .basic _ _ => true
  | .pointer _ => true
  | .slice _ => false
  | .array _ e => goComparable e
  | .mapT _ _ => false
  | .chanT _ => true
  | .signature => false
  | .iface => true
  | .structT c => c
  | .typeParam c _ => c
  | .named _ _ u => goComparable u

/-- Type expressions produced by typeToASTExpr. -/
inductive TyExpr where
  | ident (n : List Char)
  | sel (pkg n : List Char)
  | star (t : TyExpr)
  | sliceTy (t : TyExpr)
  | arrayTy (n : Nat) (t : TyExpr)
  | mapTy (k v : TyExpr)
deriving DecidableEq, Repr

/-- Fallback rendering for the default case of typeToASTExpr
(types.TypeString on an anonymous struct, chan, func or interface);
approximated, since no claim depends on its exact text. -/
def typeStr : GoType → List Char
  | .structT _ => "struct\x7b...\x7d".toList
  | .chanT _ => "chan T".toList
  | .signature => "func(...)".toList
  | .iface => "interface\x7b...\x7d".toList
  | _ => "T".toList

/-- typeToASTExpr (typecheck.go lines 392 to 434): render a type for use
in generated source; a named type from another package becomes a selector
expression. -/
def typeToASTExpr (t : GoType) (cur : Option (List Char × List Char)) : TyExpr :=
  match t with
  | .named n pkg _ =>
    match pkg, cur with
    | none, _ => .ident n
    | _, none => .ident n
    | some p, some c => if p = c then .ident n else .sel p.1 n
  | .typeParam _ n => .ident n
  | .basic _ n => .ident n
  | .pointer e => .star (typeToASTExpr e cur)
  | .slice e => .sliceTy (typeToASTExpr e cur)
  | .array l e => .arrayTy l (typeToASTExpr e cur)
  | .mapT k v => .mapTy (typeToASTExpr k cur) (typeToASTExpr v cur)
  | t => .ident (typeStr t)

/-- The zero-check conditions built by ZeroCheckExpr; the complex case
shares the integer shape because the Go code emits a BasicLit of kind INT
with value 0 for both. -/
inductive ZeroExpr where
  | eqNil (v : List Char)
  | eqEmptyString (v : List Char)
  | eqIntZero (v : List Char)
  | eqFloatZero (v : List Char)
  | notVar (v : List Char)
  | eqZeroLit (v : List Char) (ty : TyExpr)
  | eqStarNewT (v : List Char) (tname : List Char)
  | reflectZero (v : List Char)
deriving DecidableEq, Repr

/-- typeParamZeroCheckExpr (typecheck.go lines 293 to 332): a comparable
type parameter compares against a dereferenced fresh zero, a
non-comparable one uses reflect.ValueOf(&v).Elem().IsZero(). -/
def typeParamZeroCheckExpr (v : List Char) (cmp : Bool) (name : List Char) : ZeroExpr :=
  if cmp then .eqStarNewT v name else .reflectZero v

/-- ZeroCheckExpr (typecheck.go lines 205 to 287): the condition that is
true when the variable is at its zero value, chosen by type category; the
non-comparable struct and array cases fall through to the nil fallback. -/
def zeroCheckExpr (varName : List Char) (typ : Option GoType)
    (cur : Option (List Char × List Char)) : ZeroExpr :=
  match typ with
  | none => .eqNil varName
  | some t =>
    match t with
    | .typeParam cmp n => typeParamZeroCheckExpr varName cmp n
    | _ =>
      match underlying t with
      | .pointer _ | .slice _ | .mapT _ _ | .chanT _ | .signature => .eqNil varName
      | .iface => .eqNil varName
      | .basic k _ =>
        match k with
        | .bString => .eqEmptyString varName
        | .bInt => .eqIntZero varName
        | .bFloat => .eqFloatZero varName
        | .bCplx => .eqIntZero varName
        | .bBool => .notVar varName
        | .bOther => .eqNil varName
      | .structT _ =>
        if goComparable t then .eqZeroLit varName (typeToASTExpr t cur) else .eqNil varName
      | .array _ _ =>
        if goComparable t then .eqZeroLit varName (typeToASTExpr t cur) else .eqNil varName
      | _ => .eqNil varName

/-- ZeroValueDesc (typecheck.go lines 354 to 385): the human-readable zero
description used in -nd panic messages. -/
def zeroValueDesc (typ : Option GoType) : List Char :=
  match typ with
  | none => "nil".toList
  | some t =>
    match t with
    | .typeParam cmp n =>
      if cmp then "zero value of type param ".toList ++ n
      else "zero value of type param ".toList ++ n ++ " (reflect)".toList
    | _ =>
      match underlying t with
      | .pointer _ | .iface | .slice _ | .mapT _ _ | .chanT _ | .signature => "nil".toList
      | .basic k _ =>
        match k with
        | .bString => "empty string".toList
        | .bInt | .bFloat | .bCplx => "zero".toList
        | .bBool => "false".toList
        | .bOther => "zero-valued".toList
      | .structT _ => "zero-valued struct".toList
      | .array _ _ => "zero-valued array".toList
      | _ => "zero-valued".toList

/-- NeedsImport (typecheck.go lines 465 to 502): the import path required
to name a type in generated code; a non-comparable type parameter needs
reflect, a comparable named struct or array from another package needs its
package path, everything else needs nothing. -/
def needsImport (typ : Option GoType) (cur : Option (List Char × List Char)) :
    List Char :=
  match typ with
  | none => []
  | some t =>
    match t with
    | .typeParam cmp _ => if !cmp then "reflect".toList else []
    | _ =>
      match cur with
      | none => []
      | some c =>
        match underlying t with
        | .structT _ | .array _ _ =>
          if !goComparable t then []
          else
            match t with
            | .named _ pkg _ =>
              match pkg with
              | none => []
              | some p => if p = c then [] else p.2
            | _ => []
        | _ => []

end Inco.TC

namespace Inco.TC

/-- DirectiveKind of the typecheck.go variant (Require, Ensure, Must). -/
inductive DKind2 where
  | require
  | ensure
  | must
deriving DecidableEq, Repr

/-- Directive of the typecheck.go variant, with the fields its generator
reads: Kind, ND, Vars, Expr, Message.  Its comment parser lives in a part
of the variant that is not under src, so directives enter the model already
parsed. -/
structure Directive2 where
  kind : DKind2
  nd : Bool := false
  vars : List (List Char) := []
  expr : List Char := []
  message : List Char := []
deriving DecidableEq, Repr

/-- Conditions of generated if statements: the negated parenthesised
expression of a require/ensure, or a zero check. -/
inductive GenCond where
  | notParen (expr : List Char)
  | zero (z : ZeroExpr)
deriving DecidableEq, Repr

/-- Generated statements, mirroring makeIfPanicStmt, makeIfPanicErrStmt
and makeDeferStmt (typecheck.go lines 1039 to 1102). -/
inductive Stmt2 where
  | ifPanic (cond : GenCond) (msg : List Char)
  | ifPanicErr (errVar : List Char) (msg : List Char)
  | deferStmt (body : List Stmt2)

/-- Oracle for the TypeResolver: eval is the types.Eval outcome on an
expression (error, or a constant value rendered as a string when present),
resolveVar is ResolveVarType at the directive's enclosing function, pkg is
the current package as (name, path). -/
structure Resolver where
  eval : List Char → Except Unit (Option (List Char))
  resolveVar : List Char → Option GoType
  pkg : Option (List Char × List Char)

/-- EvalRequireExpr (typecheck.go lines 178 to 189): the warning string,
empty unless the expression is the compile-time constant false. -/
def evalRequireExpr (r : Resolver) (expr : List Char) : List Char :=
  match r.eval expr with
  | .error _ => []
  | .ok v =>
    if v = some ("false".toList) then
      "expression ".toList ++ goQuote expr ++
        " is always false (compile-time constant)".toList
    else []

/-- generateNDChecks (typecheck.go lines 938 to 972): one type-aware zero
check per listed variable, plus any imports the types need. -/
def generateNDChecks (vars : List (List Char)) (loc protocol : List Char)
    (resolver : Option Resolver) : List Stmt2 × List (List Char) :=
  vars.foldl
    (fun acc v =>
      let typ := match resolver with
        | some r => r.resolveVar v
        | none => none
      let curPkg := match resolver with
        | some r => r.pkg
        | none => none
      let zero := zeroCheckExpr v typ curPkg
      let msg := "inco // ".toList ++ protocol ++ " -nd violation: [".toList ++ v ++
        "] is defaulted (".toList ++ zeroValueDesc typ ++ ") at ".toList ++ loc
      let imps := match resolver with
        | some r => (let imp := needsImport typ r.pkg; if imp ≠ [] then [imp] else [])
        | none => []
      (acc.1 ++ [Stmt2.ifPanic (.zero zero) msg], acc.2 ++ imps))
    ([], [])

/-- generateRequire (typecheck.go lines 885 to 910).  parseOk is the
success of parser.ParseExpr on the expression text.  Returns the stderr
diagnostics (without trailing newlines), the generated statements, and the
imports to add. -/
def generateRequire (d : Directive2) (loc : List Char) (resolver : Option Resolver)
    (parseOk : List Char → Bool) : List (List Char) × List Stmt2 × List (List Char) :=
  if d.nd then
    let r := generateNDChecks d.vars loc ("require".toList) resolver
    ([], r.1, r.2)
  else if d.expr ≠ [] then
    let msg := if d.message = [] then "inco // require violation: ".toList ++ d.expr
      else d.message
    let diag := match resolver with
      | some r =>
        let w := evalRequireExpr r d.expr
        if w ≠ [] then ["inco: ".toList ++ w ++ " at ".toList ++ loc] else []
      | none => []
    if parseOk d.expr then
      (diag, [Stmt2.ifPanic (.notParen d.expr) (msg ++ " at ".toList ++ loc)], [])
    else (diag ++ ["inco: parse @require expr failed at ".toList ++ loc], [], [])
  else ([], [], [])

/-- generateEnsure (typecheck.go lines 913 to 935): the same checks as
generateRequire wrapped in a deferred function, without the constant-fold
warning. -/
def generateEnsure (d : Directive2) (loc : List Char) (resolver : Option Resolver)
    (parseOk : List Char → Bool) : List (List Char) × List Stmt2 × List (List Char) :=
  if d.nd then
    let r := generateNDChecks d.vars loc ("ensure".toList) resolver
    ([], [Stmt2.deferStmt r.1], r.2)
  else if d.expr ≠ [] then
    let msg := if d.message = [] then "inco // ensure violation: ".toList ++ d.expr
      else d.message
    if parseOk d.expr then
      ([], [Stmt2.deferStmt [Stmt2.ifPanic (.notParen d.expr) (msg ++ " at ".toList ++ loc)]], [])
    else (["inco: parse @ensure expr failed at ".toList ++ loc], [], [])
  else ([], [], [])

/-- AssignStmt token: plain assign or short declaration. -/
inductive ATok where
  | assign
  | define
deriving DecidableEq, Repr

/-- An assignment statement's left-hand side identifiers and token. -/
structure AssignStmt where
  lhs : List (List Char)
  tok : ATok
deriving DecidableEq, Repr

/-- Index kept by generateMustForAssign's scan over the left-hand side:
the last blank identifier, matching the loop that overwrites lastBlank. -/
def lastBlankIdx (lhs : List (List Char)) : Option Nat :=
  ((List.range lhs.length).filter (fun i => lhs.getD i [] = "_".toList)).getLast?

/-- generateMustForAssign (typecheck.go lines 977 to 1014): rename the last
blank to a position-derived error variable and promote the token to a short
declaration; with no blank, fall back to an explicit err variable; with
neither, inject nothing.  Returns the (possibly mutated) assignment and the
injected statements. -/
def generateMustForAssign (a : AssignStmt) (diLine : Nat) (loc : List Char) :
    AssignStmt × List Stmt2 :=
  match lastBlankIdx a.lhs with
  | some i =>
    let errVar := "_inco_err_".toList ++ natChars diLine
    let tok' := if a.tok = ATok.assign then ATok.define else a.tok
    ({ lhs := a.lhs.set i errVar, tok := tok' },
      [Stmt2.ifPanicErr errVar ("inco // must violation at ".toList ++ loc)])
  | none =>
    if "err".toList ∈ a.lhs then
      (a, [Stmt2.ifPanicErr ("err".toList) ("inco // must violation at ".toList ++ loc)])
    else (a, [])

/-- A source statement as processStmtList sees it: its position span, its
line, and its assignment payload when it is an AssignStmt. -/
structure SrcStmt where
  pos : Nat
  endPos : Nat
  line : Nat
  assign : Option AssignStmt
deriving DecidableEq, Repr

/-- directiveInfo (typecheck.go lines 719 to 723) with the line of its
position precomputed. -/
structure DirInfo where
  d : Directive2
  pos : Nat
  line : Nat
deriving DecidableEq, Repr

/-- An element of the rewritten statement list: an original (possibly
mutated) statement or an injected one. -/
inductive OutStmt where
  | orig (s : SrcStmt)
  | gen (g : Stmt2)

/-- generateAssertion (typecheck.go lines 869 to 882): dispatch on the
directive kind; must directives produce nothing here. -/
def generateAssertion (di : DirInfo) (resolver : Option Resolver)
    (parseOk : List Char → Bool) (fname : List Char) :
    List (List Char) × List Stmt2 × List (List Char) :=
  let loc := fname ++ [':'] ++ natChars di.line
  match di.d.kind with
  | .require => generateRequire di.d loc resolver parseOk
  | .ensure => generateEnsure di.d loc resolver parseOk
  | .must => ([], [], [])

/-- Accumulator of the between-statements directive loop (typecheck.go
lines 815 to 829). -/
structure BetweenAcc where
  pending : Option DirInfo
  stmts : List Stmt2
  imports : List (List Char)
  diag : List (List Char)
  consumed : List Nat

/-- The loop over directives that sit between the previous statement's end
and the current statement (typecheck.go lines 815 to 829): a must becomes
the pending block-mode directive, everything else generates immediately and
is consumed. -/
def consumeBetween (between : List DirInfo) (resolver : Option Resolver)
    (parseOk : List Char → Bool) (fname : List Char) : BetweenAcc :=
  between.foldl
    (fun acc di =>
      if di.d.kind = DKind2.must then { acc with pending := some di }
      else
        let g := generateAssertion di resolver parseOk fname
        { acc with
            stmts := acc.stmts ++ g.2.1
            imports := acc.imports ++ g.2.2
            diag := acc.diag ++ g.1
            consumed := acc.consumed ++ [di.pos] })
    { pending := none, stmts := [], imports := [], diag := [], consumed := [] }

/-- State of processStmtList's statement loop. -/
structure PState where
  newList : List OutStmt
  dm : List DirInfo
  imports : List (List Char)
  diag : List (List Char)
  prevEnd : Nat

/-- One iteration of processStmtList's loop (typecheck.go lines 794 to
863): emit directives found between statements, then block-mode must, then
same-line inline must, then the statement itself. -/
def stmtStep (resolver : Option Resolver) (parseOk : List Char → Bool)
    (fname : List Char) (st : PState) (stmt : SrcStmt) : PState :=
  let between := (st.dm.filter
      (fun di => st.prevEnd < di.pos && di.pos < stmt.pos)).insertionSort
      (fun a b => a.pos ≤ b.pos)
  let b := consumeBetween between resolver parseOk fname
  let dm1 := st.dm.filter (fun di => !(b.consumed.contains di.pos))
  let newList1 := st.newList ++ b.stmts.map OutStmt.gen
  let blockMust : Option (DirInfo × (AssignStmt × List Stmt2)) :=
    match b.pending, stmt.assign with
    | some di, some a =>
      let loc := fname ++ [':'] ++ natChars di.line
      let r := generateMustForAssign a di.line loc
      some (di, r)
    | _, _ => none
  match blockMust with
  | some (di, r) =>
    { newList := newList1 ++ [OutStmt.orig { stmt with assign := some r.1 }] ++
        r.2.map OutStmt.gen,
      dm := dm1.filter (fun x => !(x.pos == di.pos)),
      imports := st.imports ++ b.imports, diag := st.diag ++ b.diag,
      prevEnd := stmt.endPos }
  | none =>
    let inlineMust : Option (DirInfo × (AssignStmt × List Stmt2)) :=
      match stmt.assign with
      | some a =>
        match dm1.find? (fun di => di.d.kind == DKind2.must && di.line == stmt.line) with
        | some di =>
          let loc := fname ++ [':'] ++ natChars di.line
          some (di, generateMustForAssign a di.line loc)
        | none => none
      | none => none
    match inlineMust with
    | some (di, r) =>
      { newList := newList1 ++ [OutStmt.orig { stmt with assign := some r.1 }] ++
          r.2.map OutStmt.gen,
        dm := dm1.filter (fun x => !(x.pos == di.pos)),
        imports := st.imports ++ b.imports, diag := st.diag ++ b.diag,
        prevEnd := stmt.endPos }
    | none =>
      { newList := newList1 ++ [OutStmt.orig stmt], dm := dm1,
        imports := st.imports ++ b.imports, diag := st.diag ++ b.diag,
        prevEnd := stmt.endPos }

/-- processStmtList (typecheck.go lines 789 to 866) over one statement
list; startPos is the opening brace position. -/
def processStmtList (stmts : List SrcStmt) (startPos : Nat) (dm : List DirInfo)
    (resolver : Option Resolver) (parseOk : List Char → Bool) (fname : List Char) :
    PState :=
  stmts.foldl (stmtStep resolver parseOk fname)
    { newList := [], dm := dm, imports := [], diag := [], prevEnd := startPos }

/-- A function body as the injection pass visits it. -/
structure FuncBody where
  lbrace : Nat
  stmts : List SrcStmt
deriving DecidableEq, Repr

/-- A parsed file for the AST variant: its function bodies in traversal
order, and the directive list produced by collectDirectives over its
comments (the variant's comment parser is not under src, so the scan's
output is taken as given). -/
structure GoFile where
  funcs : List FuncBody
  directives : List DirInfo
deriving DecidableEq, Repr

/-- injectAssertions (typecheck.go lines 746 to 785) restricted to
top-level function bodies: process each statement list in order, threading
the shared directive map. -/
def injectAssertions (f : GoFile) (resolver : Option Resolver)
    (parseOk : List Char → Bool) (fname : List Char) :
    List (List OutStmt) × List (List Char) :=
  (f.funcs.foldl
    (fun acc fb =>
      let r := processStmtList fb.stmts fb.lbrace acc.2.1 resolver parseOk fname
      (acc.1 ++ [r.newList], (r.dm, acc.2.2 ++ r.imports)))
    ([], (f.directives, []))
  |> fun acc => (acc.1, acc.2.2))

/-- The overlay decision of processFile (typecheck.go lines 592 to 644):
no directives short-circuits with no shadow and no overlay entry; otherwise
the shadow is generated and the file is registered unconditionally. -/
def processFileAst (f : GoFile) (resolver : Option Resolver)
    (parseOk : List Char → Bool) (fname : List Char) :
    Option (List (List OutStmt)) :=
  if f.directives = [] then none
  else some (injectAssertions f resolver parseOk fname).1

/-- Number of injected constructs across the processed bodies. -/
def injectedCount (bodies : List (List OutStmt)) : Nat :=
  (bodies.map (fun b => (b.filter (fun s => match s with
    | OutStmt.gen _ => true
    | OutStmt.orig _ => false)).length)).sum

end Inco.TC

namespace Inco.Spec

/-! Claim-side comparator definitions, written from the specification's
words rather than from the source, for the refinement claims that contrast
the two. -/

open Inco.Lexer (needleChars)

/-- Modelled from the spec: the scanner state for deciding whether a
position in a directive body is at top level — not nested inside
parentheses and not inside a double-quoted string with backslash
escapes. -/
def tlCandidates : List Char → Int → Bool → Bool → Nat → List Nat
  | [], _, _, _, _ => []
  | c :: t, depth, inStr, esc, i =>
    let here :=
      if depth = 0 ∧ inStr = false ∧ esc = false ∧ needleChars.isPrefixOf (c :: t)
      then [i] else []
    let next : Int × Bool × Bool :=
      if esc then (depth, inStr, false)
      else if inStr then
        if c = '"' then (depth, false, false)
        else if c = '\\' then (depth, true, true)
        else (depth, true, false)
      else
        if c = '"' then (depth, true, false)
        else if c = '(' then (depth + 1, false, false)
        else if c = ')' then (depth - 1, false, false)
        else (depth, false, false)
    here ++ tlCandidates t next.1 next.2.1 next.2.2 (i + 1)

/-- Modelled from the spec: the rightmost top-level occurrence of the
" panic(" needle in a directive body — occurrences nested inside
parentheses or inside double-quoted strings count as non-top-level
(claim C5's mandated split point). -/
def specRightmostTopLevel (s : List Char) : Option Nat :=
  (tlCandidates s 0 false false 0).getLast?

/-- The claim's reading of "emitted as a plain assignment": the first
mention of the synthetic name in the emitted line is followed (after
spaces and tabs, exactly as promoteAssign scans) by a plain = that is
neither == nor :=. -/
def plainAssignAt (code v : List Char) : Bool :=
  match Inco.strIndex code v with
  | none => false
  | some idx =>
    let pos := idx + v.length + Inco.V1.wsScanLen code (idx + v.length)
    decide (code[pos]? = some '=' ∧ ¬code[pos+1]? = some '=' ∧
      (pos = 0 ∨ ¬code[pos-1]? = some ':'))

end Inco.Spec

namespace Inco

open Inco.Lexer Inco.Eng Inco.V1 Inco.TC Inco.Spec

/-- C7: for every resolved variable type, ZeroCheckExpr emits the canonical
comparison of its category — equality with nil for pointer, slice, map,
channel, function and interface types, with the empty string for strings,
with 0 for integers, with 0.0 for floats, negation for booleans, and a zero
composite-literal comparison for comparable structs and arrays — and for an
unconstrained type parameter it emits the reflection-based zero check while
NeedsImport records the reflect package. -/
theorem C7_zero_check_categories (v nm pn : List Char) (e k : GoType) (ln : Nat)
    (p : Option (List Char × List Char)) (cur : Option (List Char × List Char)) :
    zeroCheckExpr v (some (GoType.pointer e)) cur = ZeroExpr.eqNil v ∧
    zeroCheckExpr v (some (GoType.slice e)) cur = ZeroExpr.eqNil v ∧
    zeroCheckExpr v (some (GoType.mapT k e)) cur = ZeroExpr.eqNil v ∧
    zeroCheckExpr v (some (GoType.chanT e)) cur = ZeroExpr.eqNil v ∧
    zeroCheckExpr v (some GoType.signature) cur = ZeroExpr.eqNil v ∧
    zeroCheckExpr v (some GoType.iface) cur = ZeroExpr.eqNil v ∧
    zeroCheckExpr v (some (GoType.basic BasicKind.bString nm)) cur =
      ZeroExpr.eqEmptyString v ∧
    zeroCheckExpr v (some (GoType.basic BasicKind.bInt nm)) cur = ZeroExpr.eqIntZero v ∧
    zeroCheckExpr v (some (GoType.basic BasicKind.bFloat nm)) cur =
      ZeroExpr.eqFloatZero v ∧
    zeroCheckExpr v (some (GoType.basic BasicKind.bBool nm)) cur = ZeroExpr.notVar v ∧
    zeroCheckExpr v (some (GoType.named nm p (GoType.structT true))) cur =
      ZeroExpr.eqZeroLit v (typeToASTExpr (GoType.named nm p (GoType.structT true)) cur) ∧
    zeroCheckExpr v (some (GoType.array ln (GoType.basic BasicKind.bInt nm))) cur =
      ZeroExpr.eqZeroLit v (typeToASTExpr (GoType.array ln (GoType.basic BasicKind.bInt nm)) cur) ∧
    zeroCheckExpr v (some (GoType.typeParam false pn)) cur = ZeroExpr.reflectZero v ∧
    needsImport (some (GoType.typeParam false pn)) cur = "reflect".toList ∧
    zeroCheckExpr v (some (GoType.typeParam true pn)) cur = ZeroExpr.eqStarNewT v pn ∧
    needsImport (some (GoType.typeParam true pn)) cur = [] :=
  ⟨rfl, rfl, rfl, rfl, rfl, rfl, rfl, rfl, rfl, rfl, rfl, rfl, rfl, rfl, rfl, rfl⟩

/-- C3 counterexample: a recognized must directive hosted on a line that
begins with a line-comment delimiter is not classified standalone (nor
inline) — it is dropped, although the claim's host-line rule alone would
classify it standalone. -/
theorem C3_counterexample :
    Eng.isStandaloneLine ("// @must".toList) = true ∧
    Eng.classifyDirective DirectiveKind.must ("// @must".toList) = Eng.DirClass.dropped := by
  constructor
  · rfl
  · rfl

/-- C3 amended: classification depends on the host line and on the
directive keyword together — a directive is standalone iff the trimmed host
line begins with a comment delimiter and the keyword is require, inline iff
the host line does not and the keyword is must or ensure; keyword and
host-form mismatches are dropped. -/
theorem C3_classification_rule (kk : DirectiveKind) (line : List Char) :
    (Eng.classifyDirective kk line = Eng.DirClass.standalone ↔
      (Eng.isStandaloneLine line = true ∧ kk = DirectiveKind.require)) ∧
    (Eng.classifyDirective kk line = Eng.DirClass.inline ↔
      (Eng.isStandaloneLine line = false ∧
        (kk = DirectiveKind.must ∨ kk = DirectiveKind.ensure))) := by
  cases kk <;> by_cases h : Eng.isStandaloneLine line <;>
    simp [Eng.classifyDirective, h]

/-- C1 counterexample: an inline must directive whose host assignment line
has no discarded position is not a silent no-op in the text engine — the
directive comment is stripped from the host line and the check on the
(never-declared) synthetic variable is still injected. -/
theorem C1_counterexample :
    Eng.emitInline { kind := DirectiveKind.must } ("m.go".toList) ("m.go".toList) 5
        ("\tres, err := q() // @must".toList) =
      ["\t//line m.go:5".toList, "\tres, err := q()".toList,
        "\tif __inco_err != nil \x7b\n\t\tpanic(__inco_err)\n\t\x7d".toList] := by
  decide

/-- C1 amended: in the text engine an inline directive whose host line has
no discarded position is not dropped — the emitted sequence is the line
directive, the host code with only the directive comment stripped (the
rewrite leaves it unchanged), and the injected check referencing the
synthetic variable. -/
theorem C1_no_blank_still_checked (d : Directive) (path relPath line : List Char)
    (n : Nat)
    (h : Eng.findLastBlank (Eng.stripInlineComment line (Eng.keywordOf d)) = none) :
    Eng.emitInline d path relPath n line =
      [Eng.lineDirective (Eng.extractIndent line) path n,
        Eng.stripInlineComment line (Eng.keywordOf d),
        Eng.generateInlineIfBlock d (Eng.extractIndent line) relPath n
          (Eng.varNameOf d)] := by
  simp [Eng.emitInline, Eng.rewriteInlineLine, Eng.replaceLastBlank, h]

/-- C1 witness: the amended statement instantiated on a concrete host line
with no discarded position. -/
theorem C1_no_blank_still_checked_witness :
    Eng.findLastBlank
        (Eng.stripInlineComment ("\tx, err := q() // @must".toList)
          (Eng.keywordOf { kind := DirectiveKind.must })) = none ∧
    Eng.emitInline { kind := DirectiveKind.must } ("m.go".toList) ("m.go".toList) 9
        ("\tx, err := q() // @must".toList) =
      [Eng.lineDirective (Eng.extractIndent ("\tx, err := q() // @must".toList))
          ("m.go".toList) 9,
        Eng.stripInlineComment ("\tx, err := q() // @must".toList)
          (Eng.keywordOf { kind := DirectiveKind.must }),
        Eng.generateInlineIfBlock { kind := DirectiveKind.must }
          (Eng.extractIndent ("\tx, err := q() // @must".toList)) ("m.go".toList) 9
          (Eng.varNameOf { kind := DirectiveKind.must })] :=
  ⟨by decide, C1_no_blank_still_checked _ _ _ _ _ (by decide)⟩

/-- C9 counterexample: in the AST engine a file whose single directive is
an inline must on an assignment with neither a blank identifier nor an err
variable is still registered in the overlay although the injection pass
injects zero constructs. -/
theorem C9_counterexample :
    (TC.processFileAst
        ⟨[⟨10, [⟨12, 20, 3, some ⟨["res".toList, "val".toList], TC.ATok.define⟩⟩]⟩],
          [⟨⟨TC.DKind2.must, false, [], [], []⟩, 25, 3⟩]⟩
        none (fun _ => false) ("m.go".toList)).isSome = true ∧
    (TC.processFileAst
        ⟨[⟨10, [⟨12, 20, 3, some ⟨["res".toList, "val".toList], TC.ATok.define⟩⟩]⟩],
          [⟨⟨TC.DKind2.must, false, [], [], []⟩, 25, 3⟩]⟩
        none (fun _ => false) ("m.go".toList)).map TC.injectedCount = some 0 := by
  constructor
  · rfl
  · rfl

/-- C9 amended: in the AST engine a file is registered in the overlay iff
its comment scan yielded at least one directive — independently of whether
the injection pass actually injected anything. -/
theorem C9_overlay_iff_scan (f : TC.GoFile) (r : Option TC.Resolver)
    (pOk : List Char → Bool) (fn : List Char) :
    (TC.processFileAst f r pOk fn).isSome ↔ f.directives ≠ [] := by
  by_cases h : f.directives = [] <;> simp [TC.processFileAst, h]

/-- C6: for a require directive whose expression the resolver
constant-folds to false, the generator emits exactly one stderr diagnostic
containing "always false" together with the quoted expression text and the
location, and still emits the runtime conditional check on that same
expression — the diagnostic is in addition to, never instead of, the
check. -/
theorem C6_always_false_diag_and_check (d : TC.Directive2) (loc : List Char)
    (r : TC.Resolver) (parseOk : List Char → Bool)
    (hnd : d.nd = false) (hexpr : d.expr ≠ [])
    (heval : r.eval d.expr = .ok (some ("false".toList)))
    (hparse : parseOk d.expr = true) :
    (∃ w, (TC.generateRequire d loc (some r) parseOk).1 = [w] ∧
      "always false".toList <:+: w ∧ goQuote d.expr <:+: w ∧ loc <:+: w) ∧
    (∃ m, (TC.generateRequire d loc (some r) parseOk).2.1 =
      [TC.Stmt2.ifPanic (TC.GenCond.notParen d.expr) m]) := by
  have h1 : (TC.generateRequire d loc (some r) parseOk).1 =
      ["inco: ".toList ++
        ("expression ".toList ++ goQuote d.expr ++
          " is always false (compile-time constant)".toList) ++ " at ".toList ++ loc] := by
    simp [TC.generateRequire, hnd, hexpr, TC.evalRequireExpr, heval, hparse]
  have h2 : (TC.generateRequire d loc (some r) parseOk).2.1 =
      [TC.Stmt2.ifPanic (TC.GenCond.notParen d.expr)
        ((if d.message = [] then "inco // require violation: ".toList ++ d.expr
          else d.message) ++ " at ".toList ++ loc)] := by
    simp [TC.generateRequire, hnd, hexpr, TC.evalRequireExpr, heval, hparse]
  refine ⟨⟨_, h1, ?_, ?_, ?_⟩, ⟨_, h2⟩⟩
  · have hstep : " is always false (compile-time constant)".toList <:+:
        ("inco: ".toList ++
          ("expression ".toList ++ goQuote d.expr ++
            " is always false (compile-time constant)".toList) ++ " at ".toList ++ loc) :=
      ⟨"inco: ".toList ++ ("expression ".toList ++ goQuote d.expr), " at ".toList ++ loc,
        by simp⟩
    exact List.IsInfix.trans (by decide) hstep
  · exact ⟨"inco: ".toList ++ "expression ".toList,
      " is always false (compile-time constant)".toList ++ " at ".toList ++ loc, by simp⟩
  · exact ⟨"inco: ".toList ++ ("expression ".toList ++ goQuote d.expr ++
      " is always false (compile-time constant)".toList) ++ " at ".toList, [], by simp⟩

/-- C6 witness: the statement instantiated on the always-false
precondition 1 > 2 with a resolver that folds it to false and a parser
that accepts it. -/
theorem C6_always_false_witness :
    (∃ w, (TC.generateRequire ⟨TC.DKind2.require, false, [], "1 > 2".toList, []⟩
        ("m.go:7".toList)
        (some ⟨fun _ => .ok (some ("false".toList)), fun _ => none, none⟩)
        (fun _ => true)).1 = [w] ∧
      "always false".toList <:+: w ∧ goQuote ("1 > 2".toList) <:+: w ∧
      "m.go:7".toList <:+: w) ∧
    (∃ m, (TC.generateRequire ⟨TC.DKind2.require, false, [], "1 > 2".toList, []⟩
        ("m.go:7".toList)
        (some ⟨fun _ => .ok (some ("false".toList)), fun _ => none, none⟩)
        (fun _ => true)).2.1 =
      [TC.Stmt2.ifPanic (TC.GenCond.notParen ("1 > 2".toList)) m]) :=
  C6_always_false_diag_and_check _ _ _ _ rfl (by decide) rfl rfl

/-- C8 counterexample: a standalone postcondition directive outside any
function body is not a fatal error — the text engine processes the file to
completion and replaces the top-level ensure comment at line 2, which lies
outside the only function scope, with a top-level deferred check. -/
theorem C8_counterexample :
    V1.scopeAt [(3, 4)] 2 = -1 ∧
    V1.processLines ("m.go".toList) ("m.go".toList) [(3, 4)]
        ["package main".toList, "// @ensure x > 0".toList, "func f() \x7b".toList,
          "\x7d".toList]
        [(2, ⟨V1.K4.ensure, [], "x > 0".toList⟩)] =
      some ["package main".toList, "//line m.go:2".toList,
        "defer func() \x7b\n\tif !(x > 0) \x7b\n\t\tpanic(\"ensure violation: x > 0 (at m.go:2)\")\n\t\x7d\n\x7d()".toList,
        "//line m.go:3".toList, "func f() \x7b".toList, "\x7d".toList] := by
  exact ⟨rfl, by decide⟩

/-- C8 amended: the emission of standalone directives never consults the
function scopes at all — with no inline directives classified, the loop's
output is the same under any scope list, so a postcondition outside every
function is emitted as a top-level deferred check rather than located in an
enclosing function or reported fatal. -/
theorem C8_standalone_ignores_scopes (path relPath : List Char)
    (st : List (Nat × V1.Directive4)) (lines : List (List Char))
    (s1 s2 : List (Nat × Nat)) :
    V1.emitLoop path relPath s1 st [] lines =
      V1.emitLoop path relPath s2 st [] lines := by
  have hf : V1.emitLine path relPath s1 st [] = V1.emitLine path relPath s2 st [] := by
    funext stx item
    simp only [V1.emitLine, V1.lookupAL]
  unfold V1.emitLoop
  rw [hf]

/-- Taking n elements after dropping j agrees between two lists that agree
on their first m elements, whenever the window fits. -/
theorem take_drop_agree {l1 l2 : List Char} {m j n : Nat}
    (h : l1.take m = l2.take m) (hle : j + n ≤ m) :
    (l1.drop j).take n = (l2.drop j).take n := by
  rw [List.take_drop, List.take_drop]
  have h2 : l1.take (j + n) = l2.take (j + n) := by
    have h3 := congrArg (List.take (j + n)) h
    simpa [List.take_take, Nat.min_eq_left hle] using h3
  rw [h2]

/-- Being a prefix after dropping j agrees between two lists that agree on
their first m elements, whenever the window fits. -/
theorem prefix_drop_agree {l1 l2 sub : List Char} {m j : Nat}
    (h : l1.take m = l2.take m) (hle : j + sub.length ≤ m) :
    (sub <+: l1.drop j) ↔ (sub <+: l2.drop j) := by
  rw [List.prefix_iff_eq_take, List.prefix_iff_eq_take, take_drop_agree h hle]

/-- strIndex computes the first occurrence: the needle is a prefix at the
returned index and at no earlier index. -/
theorem strIndex_eq_some_iff (s sub : List Char) (i : Nat) :
    strIndex s sub = some i ↔
      (sub <+: s.drop i ∧ ∀ j, j < i → ¬ sub <+: s.drop j) := by
  induction s generalizing i with
  | nil =>
    rw [strIndex.eq_1]
    by_cases he : sub.isEmpty
    · have hsub : sub = [] := List.isEmpty_iff.mp he
      subst hsub
      simp only [List.isEmpty_nil, if_true, List.drop_nil, List.nil_prefix, not_true,
        true_and, Option.some.injEq]
      constructor
      · rintro rfl
        exact fun j hj => absurd hj (Nat.not_lt_zero j)
      · intro h
        by_contra hne
        exact h 0 (Nat.pos_of_ne_zero (fun h0 => hne h0.symm))
    · have hsub : ¬ sub <+: [] := by
        intro h
        exact he (by simpa [List.isEmpty_iff] using List.prefix_nil.mp h)
      simp [he, List.drop_nil, hsub]
  | cons c t ih =>
    rw [show strIndex (c :: t) sub =
      (if sub.isPrefixOf (c :: t) then some 0 else (strIndex t sub).map (· + 1)) from rfl]
    by_cases hp : sub <+: (c :: t)
    · rw [if_pos ((List.isPrefixOf_iff_prefix).mpr hp)]
      cases i with
      | zero => simp [hp]
      | succ k =>
        simp only [List.drop_succ_cons]
        constructor
        · intro h; exact absurd h (by simp)
        · rintro ⟨h1, h2⟩
          exact absurd hp (by simpa using h2 0 (Nat.succ_pos k))
    · rw [if_neg (by simpa [List.isPrefixOf_iff_prefix] using hp)]
      cases i with
      | zero => simp [hp]
      | succ k =>
        simp only [List.drop_succ_cons, Option.map_eq_some']
        constructor
        · rintro ⟨m, hm, hmk⟩
          have hmk' : m = k := by omega
          subst hmk'
          rcases (ih m).mp hm with ⟨h1, h2⟩
          refine ⟨h1, ?_⟩
          intro j hj
          cases j with
          | zero => simpa using hp
          | succ m' =>
            exact fun hpre => h2 m' (Nat.lt_of_succ_lt_succ hj) (by simpa using hpre)
        · rintro ⟨h1, h2⟩
          refine ⟨k, ?_, rfl⟩
          refine (ih k).mpr ⟨h1, ?_⟩
          intro j hj
          exact fun hpre => h2 (j + 1) (Nat.succ_lt_succ hj) (by simpa using hpre)

/-- Taking the length of a takeWhile recovers the takeWhile. -/
theorem take_takeWhile_length (P : Char → Bool) (l : List Char) :
    l.take (l.takeWhile P).length = l.takeWhile P := by
  induction l with
  | nil => rfl
  | cons a t ih =>
    by_cases hP : P a
    · simp [List.takeWhile_cons, hP, ih]
    · simp [List.takeWhile_cons, hP]

/-- takeWhile passes over a block whose elements all satisfy the
predicate. -/
theorem takeWhile_append_all {P : Char → Bool} {a : List Char} (b : List Char)
    (h : ∀ x ∈ a, P x = true) :
    (a ++ b).takeWhile P = a ++ b.takeWhile P := by
  induction a with
  | nil => simp
  | cons x t ih =>
    have hx : P x = true := h x (by simp)
    simp only [List.cons_append, List.takeWhile_cons, hx, if_true]
    rw [ih (fun y hy => h y (by simp [hy]))]

/-- Inserting a colon at position pos leaves the first pos characters
unchanged. -/
theorem promoted_take_eq (code : List Char) (pos : Nat) (hpos : pos ≤ code.length) :
    (code.take pos ++ [':'] ++ code.drop pos).take pos = code.take pos := by
  rw [List.append_assoc]
  have hl : (code.take pos).length = pos := List.length_take_of_le hpos
  calc (code.take pos ++ ([':'] ++ code.drop pos)).take pos
      = (code.take pos ++ ([':'] ++ code.drop pos)).take (code.take pos).length := by
        rw [hl]
    _ = code.take pos := List.take_left _ _

/-- The inserted colon sits at position pos. -/
theorem promoted_getElem (code : List Char) (pos : Nat) (hpos : pos ≤ code.length) :
    (code.take pos ++ [':'] ++ code.drop pos)[pos]? = some ':' := by
  rw [List.append_assoc]
  have hl : (code.take pos).length = pos := List.length_take_of_le hpos
  rw [List.getElem?_append_right (by omega)]
  simp [hl]

/-- Inserting the colon right after the whitespace run does not change the
length of that run: the promoted string scans to the same position. -/
theorem wsScanLen_promoted (code : List Char) (a : Nat)
    (hpos : a + wsScanLen code a ≤ code.length) :
    wsScanLen (code.take (a + wsScanLen code a) ++ [':'] ++
      code.drop (a + wsScanLen code a)) a = wsScanLen code a := by
  set P : Char → Bool := fun c => c = ' ' || c = '\t' with hP
  set w := wsScanLen code a with hw
  have hseg : (code.take (a + w)).drop a = ((code.drop a).take w) := by
    rw [List.take_drop]
  have hsegw : (code.drop a).take w = (code.drop a).takeWhile P := by
    rw [hw]
    exact take_takeWhile_length P (code.drop a)
  have hdrop : (code.take (a + w) ++ [':'] ++ code.drop (a + w)).drop a =
      ((code.drop a).takeWhile P) ++ ([':'] ++ code.drop (a + w)) := by
    rw [List.append_assoc]
    rw [List.drop_append_of_le_length (by
      rw [List.length_take_of_le hpos]; omega)]
    rw [hseg, hsegw]
  unfold wsScanLen
  rw [hdrop]
  rw [takeWhile_append_all _ (fun x hx => List.mem_takeWhile_imp hx)]
  have hcolon : ([':'] ++ code.drop (a + w)).takeWhile P = [] := by
    simp [List.takeWhile_cons, hP]
  rw [hcolon]
  simp [wsScanLen, hw]

/-- Unfolding of promoteAssign when the variable is absent. -/
theorem promoteAssign_of_none {code v : List Char} (h : strIndex code v = none) :
    V1.promoteAssign code v = code := by
  unfold V1.promoteAssign
  rw [h]

/-- Unfolding of promoteAssign when the variable is found. -/
theorem promoteAssign_of_some {code v : List Char} {idx : Nat}
    (h : strIndex code v = some idx) :
    V1.promoteAssign code v =
      (if code[idx + v.length + V1.wsScanLen code (idx + v.length)]? = some '=' ∧
          ¬code[idx + v.length + V1.wsScanLen code (idx + v.length) + 1]? = some '=' ∧
          (idx + v.length + V1.wsScanLen code (idx + v.length) = 0 ∨
            ¬code[idx + v.length + V1.wsScanLen code (idx + v.length) - 1]? = some ':') then
        code.take (idx + v.length + V1.wsScanLen code (idx + v.length)) ++ [':'] ++
          code.drop (idx + v.length + V1.wsScanLen code (idx + v.length))
      else code) := by
  unfold V1.promoteAssign
  rw [h]

/-- C10: promoteAssign is idempotent — applying it twice yields the same
result as applying it once, because a line whose operator it has already
promoted to a declare-and-assign (or that never met the promotion
condition) is returned unchanged by the second pass. -/
theorem C10_promoteAssign_idempotent (code v : List Char) :
    V1.promoteAssign (V1.promoteAssign code v) v = V1.promoteAssign code v := by
  rcases hidx : strIndex code v with _ | idx
  · rw [promoteAssign_of_none hidx, promoteAssign_of_none hidx]
  · by_cases hc : (code[idx + v.length + V1.wsScanLen code (idx + v.length)]? = some '=' ∧
        ¬code[idx + v.length + V1.wsScanLen code (idx + v.length) + 1]? = some '=' ∧
        (idx + v.length + V1.wsScanLen code (idx + v.length) = 0 ∨
          ¬code[idx + v.length + V1.wsScanLen code (idx + v.length) - 1]? = some ':'))
    · have h1 : V1.promoteAssign code v =
          code.take (idx + v.length + V1.wsScanLen code (idx + v.length)) ++ [':'] ++
            code.drop (idx + v.length + V1.wsScanLen code (idx + v.length)) := by
        rw [promoteAssign_of_some hidx, if_pos hc]
      have hlt : idx + v.length + V1.wsScanLen code (idx + v.length) < code.length := by
        by_contra hge
        rw [List.getElem?_eq_none (Nat.le_of_not_lt hge)] at hc
        exact absurd hc.1 (by simp)
      have htake : (code.take (idx + v.length + V1.wsScanLen code (idx + v.length)) ++
          [':'] ++ code.drop (idx + v.length + V1.wsScanLen code (idx + v.length))).take
            (idx + v.length + V1.wsScanLen code (idx + v.length)) =
          code.take (idx + v.length + V1.wsScanLen code (idx + v.length)) :=
        promoted_take_eq code _ (Nat.le_of_lt hlt)
      set code2 := code.take (idx + v.length + V1.wsScanLen code (idx + v.length)) ++
          [':'] ++ code.drop (idx + v.length + V1.wsScanLen code (idx + v.length))
        with hcode2
      have hidx2 : strIndex code2 v = some idx := by
        rw [strIndex_eq_some_iff] at hidx ⊢
        refine ⟨(prefix_drop_agree htake (by omega)).mpr hidx.1, ?_⟩
        intro j hj hpre
        exact hidx.2 j hj ((prefix_drop_agree htake (by omega)).mp hpre)
      have hws : V1.wsScanLen code2 (idx + v.length) =
          V1.wsScanLen code (idx + v.length) :=
        wsScanLen_promoted code (idx + v.length) (Nat.le_of_lt hlt)
      have hget : code2[idx + v.length + V1.wsScanLen code (idx + v.length)]? =
          some ':' :=
        promoted_getElem code _ (Nat.le_of_lt hlt)
      rw [h1]
      rw [promoteAssign_of_some hidx2, hws, if_neg]
      intro hcc
      rw [hget] at hcc
      exact absurd hcc.1 (by simp)
    · have h1 : V1.promoteAssign code v = code := by
        rw [promoteAssign_of_some hidx, if_neg hc]
      rw [h1, promoteAssign_of_some hidx, if_neg hc]

/-- Helper: stepping the reset logic from an empty declared set always
yields the empty set with the new scope remembered. -/
theorem inlineStep_nil (ls sc : Int) : V1.inlineStep [] ls sc = ([], sc) := by
  unfold V1.inlineStep
  by_cases h : sc ≠ ls
  · rw [if_pos h]
  · rw [if_neg h]
    push_neg at h
    rw [h]

/-- Helper: within a run of inline directives sharing one innermost scope,
the promotion flag of the k-th mention holds exactly when its synthetic
name is neither in the starting declared set nor mentioned earlier in the
run. -/
theorem traceAux_const (sc : Int) (seq : List (Int × List Char)) :
    ∀ (d : List (List Char)), (∀ x ∈ seq, x.1 = sc) →
    ∀ k, k < seq.length →
      ((V1.inlineTraceAux seq d sc).getD k false = true ↔
        ((seq.getD k (0, [])).2 ∉ d ∧
          ∀ j, j < k → (seq.getD j (0, [])).2 ≠ (seq.getD k (0, [])).2)) := by
  induction seq with
  | nil => intro d _ k hk; exact absurd hk (by simp)
  | cons hd rest ih =>
    rintro d hsc k hk
    obtain ⟨sc0, v0⟩ := hd
    have hsc0 : sc0 = sc := hsc (sc0, v0) (by simp)
    subst hsc0
    have hstep : V1.inlineStep d sc0 sc0 = (d, sc0) := by
      unfold V1.inlineStep; rw [if_neg (by simp)]
    rw [show V1.inlineTraceAux ((sc0, v0) :: rest) d sc0 =
      (V1.declStep (V1.inlineStep d sc0 sc0).1 v0).1 ::
        V1.inlineTraceAux rest (V1.declStep (V1.inlineStep d sc0 sc0).1 v0).2 sc0
      from rfl, hstep]
    cases k with
    | zero =>
      simp only [List.getD_cons_zero]
      unfold V1.declStep
      by_cases hv : v0 ∈ d
      · rw [if_neg (by simpa using hv)]
        simp [hv]
      · rw [if_pos (by simpa using hv)]
        simp [hv]
    | succ k' =>
      have hk' : k' < rest.length := by simpa using hk
      simp only [List.getD_cons_succ]
      by_cases hv : v0 ∈ d
      · have hd' : (V1.declStep d v0).2 = d := by
          unfold V1.declStep; rw [if_neg (by simpa using hv)]
        rw [hd', ih _ (fun x hx => hsc x (by simp [hx])) k' hk']
        constructor
        · rintro ⟨h1, h2⟩
          refine ⟨h1, ?_⟩
          intro j hj
          cases j with
          | zero =>
            simp only [List.getD_cons_zero]
            intro heq
            exact h1 (heq ▸ hv)
          | succ j' => exact h2 j' (by omega)
        · rintro ⟨h1, h2⟩
          exact ⟨h1, fun j hj => h2 (j + 1) (by omega)⟩
      · have hd' : (V1.declStep d v0).2 = v0 :: d := by
          unfold V1.declStep; rw [if_pos (by simpa using hv)]
        rw [hd', ih _ (fun x hx => hsc x (by simp [hx])) k' hk']
        constructor
        · rintro ⟨h1, h2⟩
          rw [List.mem_cons] at h1
          push_neg at h1
          refine ⟨h1.2, ?_⟩
          intro j hj
          cases j with
          | zero =>
            simp only [List.getD_cons_zero]
            exact fun heq => h1.1 heq.symm
          | succ j' => exact h2 j' (by omega)
        · rintro ⟨h1, h2⟩
          have h0 := h2 0 (by omega)
          simp only [List.getD_cons_zero] at h0
          refine ⟨?_, fun j hj => h2 (j + 1) (by omega)⟩
          rw [List.mem_cons]
          push_neg
          exact ⟨fun heq => h0 heq.symm, h1⟩

/-- Helper: with an empty declared set the trace does not depend on the
remembered last scope. -/
theorem traceAux_nil_ls (seq : List (Int × List Char)) (ls ls' : Int) :
    V1.inlineTraceAux seq [] ls = V1.inlineTraceAux seq [] ls' := by
  cases seq with
  | nil => rfl
  | cons hd rest =>
    obtain ⟨sc, v⟩ := hd
    show (V1.declStep (V1.inlineStep [] ls sc).1 v).1 ::
        V1.inlineTraceAux rest (V1.declStep (V1.inlineStep [] ls sc).1 v).2 sc =
      (V1.declStep (V1.inlineStep [] ls' sc).1 v).1 ::
        V1.inlineTraceAux rest (V1.declStep (V1.inlineStep [] ls' sc).1 v).2 sc
    rw [inlineStep_nil, inlineStep_nil]

/-- Helper: the trace of an appended sequence splits at the carried
state. -/
theorem traceAux_append (a b : List (Int × List Char)) :
    ∀ (d : List (List Char)) (ls : Int),
    V1.inlineTraceAux (a ++ b) d ls =
      V1.inlineTraceAux a d ls ++
        V1.inlineTraceAux b (V1.traceState a d ls).1 (V1.traceState a d ls).2 := by
  induction a with
  | nil => intro d ls; rfl
  | cons hd rest ih =>
    intro d ls
    obtain ⟨sc, v⟩ := hd
    show (V1.declStep (V1.inlineStep d ls sc).1 v).1 ::
        V1.inlineTraceAux (rest ++ b) (V1.declStep (V1.inlineStep d ls sc).1 v).2 sc = _
    rw [ih]
    rfl

/-- Helper: the trace has one flag per inline directive. -/
theorem traceAux_length (seq : List (Int × List Char)) :
    ∀ (d : List (List Char)) (ls : Int),
    (V1.inlineTraceAux seq d ls).length = seq.length := by
  induction seq with
  | nil => intro d ls; rfl
  | cons hd rest ih =>
    intro d ls
    obtain ⟨sc, v⟩ := hd
    show ((V1.declStep (V1.inlineStep d ls sc).1 v).1 ::
        V1.inlineTraceAux rest (V1.declStep (V1.inlineStep d ls sc).1 v).2 sc).length = _
    simp [ih]

/-- Helper: the remembered scope after a non-empty run is the scope of its
last element. -/
theorem traceState_last (a : List (Int × List Char)) (hne : a ≠ []) :
    ∀ (d : List (List Char)) (ls : Int),
    (V1.traceState a d ls).2 = (a.getLast hne).1 := by
  induction a with
  | nil => exact absurd rfl hne
  | cons hd rest ih =>
    intro d ls
    obtain ⟨sc, v⟩ := hd
    cases rest with
    | nil =>
      show (V1.traceState [] _ sc).2 = _
      rfl
    | cons r rs =>
      have hrne : (r :: rs) ≠ [] := by simp
      show (V1.traceState (r :: rs) _ sc).2 = _
      rw [ih hrne, List.getLast_cons hrne]

/-- C2 amended: the first mention of a synthetic variable within a run of
inline directives sharing one innermost function scope is promoted (a plain
assign becomes a declare-and-assign) and later mentions in the run are not
promoted — they retain the operator written in the source rather than being
demoted to plain assignment; and the declared set is reset exactly when the
innermost function scope of an inline directive's line differs from that of
the previous one, never across lexical blocks within one function. -/
theorem C2_promotion_rule :
    (∀ (sc : Int) (seq : List (Int × List Char)), (∀ x ∈ seq, x.1 = sc) →
      ∀ k, k < seq.length →
        ((V1.inlineTrace seq).getD k false = true ↔
          ∀ j, j < k → (seq.getD j (0, [])).2 ≠ (seq.getD k (0, [])).2)) ∧
    (∀ (s1 : List (Int × List Char)) (hne : s1 ≠ []) (sc2 : Int) (v : List Char)
      (s2 : List (Int × List Char)), (s1.getLast hne).1 ≠ sc2 →
        (V1.inlineTrace (s1 ++ (sc2, v) :: s2)).getD s1.length false = true) := by
  constructor
  · intro sc seq hsc k hk
    unfold V1.inlineTrace
    rw [traceAux_nil_ls seq (-2) sc, traceAux_const sc seq [] hsc k hk]
    simp
  · intro s1 hne sc2 v s2 hdiff
    unfold V1.inlineTrace
    rw [traceAux_append]
    rw [List.getD_eq_getElem?_getD]
    rw [List.getElem?_append_right (by rw [traceAux_length])]
    rw [traceAux_length]
    simp only [Nat.sub_self]
    have hls : (V1.traceState s1 [] (-2)).2 = (s1.getLast hne).1 :=
      traceState_last s1 hne [] (-2)
    have hstep : V1.inlineStep (V1.traceState s1 [] (-2)).1
        (V1.traceState s1 [] (-2)).2 sc2 = ([], sc2) := by
      unfold V1.inlineStep
      rw [if_pos (by rw [hls]; exact fun h => hdiff h.symm)]
    rw [show V1.inlineTraceAux ((sc2, v) :: s2) (V1.traceState s1 [] (-2)).1
        (V1.traceState s1 [] (-2)).2 =
      (V1.declStep (V1.inlineStep (V1.traceState s1 [] (-2)).1
          (V1.traceState s1 [] (-2)).2 sc2).1 v).1 ::
        V1.inlineTraceAux s2 (V1.declStep (V1.inlineStep (V1.traceState s1 [] (-2)).1
          (V1.traceState s1 [] (-2)).2 sc2).1 v).2 sc2 from rfl]
    rw [hstep]
    show ((V1.declStep [] v).1 :: _)[0]?.getD false = true
    unfold V1.declStep
    rw [if_pos (by simp)]
    simp

/-- C2 witness: the promotion rule instantiated on a concrete trace — the
second same-scope mention of the synthetic name is not promoted, and a
mention right after a scope change is. -/
theorem C2_promotion_rule_witness :
    ((V1.inlineTrace [((0 : Int), "e".toList), ((0 : Int), "e".toList)]).getD 1 false =
        true ↔
      ∀ j, j < 1 →
        (([((0 : Int), "e".toList), ((0 : Int), "e".toList)].getD j (0, [])).2 ≠
          ([((0 : Int), "e".toList), ((0 : Int), "e".toList)].getD 1 (0, [])).2)) ∧
    (V1.inlineTrace ([((0 : Int), "e".toList)] ++ ((1 : Int), "e".toList) ::
        [])).getD 1 false = true := by
  constructor
  · exact C2_promotion_rule.1 0 _ (by decide) 1 (by decide)
  · exact C2_promotion_rule.2 [((0 : Int), "e".toList)] (by simp) 1 ("e".toList) []
      (by decide)

/-- C2 counterexample: two must directives in one function whose host lines
both use a declare-and-assign operator; the second mention of the synthetic
variable is emitted with := carried over from the source, not as the plain
assignment the claim requires. -/
theorem C2_counterexample :
    V1.processLines ("m.go".toList) ("m.go".toList) [(1, 4)]
        ["func f() \x7b".toList, "\ta, _ := g() // @must".toList,
          "\tb, _ := g() // @must".toList, "\x7d".toList]
        [(2, ⟨V1.K4.must, [], []⟩), (3, ⟨V1.K4.must, [], []⟩)] =
      some ["func f() \x7b".toList,
        "\t//line m.go:2".toList, "\ta, __inco_err := g()".toList,
        "\tif __inco_err != nil \x7b\n\t\tpanic(__inco_err)\n\t\x7d".toList,
        "\t//line m.go:3".toList, "\tb, __inco_err := g()".toList,
        "\tif __inco_err != nil \x7b\n\t\tpanic(__inco_err)\n\t\x7d".toList,
        "//line m.go:4".toList, "\x7d".toList] ∧
    Spec.plainAssignAt ("\tb, __inco_err := g()".toList) ("__inco_err".toList) =
      false := by
  exact ⟨by decide, by decide⟩


/- C4 supporting lemmas: trimming fixed points, stripComment error
characterization, and nonemptiness of the parseTrailingPanic split. -/

theorem trimR_prefix (l : List Char) : trimR l <+: l := by
  unfold trimR
  have h := @List.dropWhile_suffix Char l.reverse isSpaceChar
  have h2 := List.reverse_prefix.mpr h
  simpa using h2

theorem prefix_head_eq {l1 l2 : List Char} (h : l1 <+: l2) (hne : l1 ≠ []) :
    l1.head? = l2.head? := by
  rcases h with ⟨t, rfl⟩
  cases l1 with
  | nil => exact absurd rfl hne
  | cons a s => simp

theorem trimL_head_not (l : List Char) (c : Char)
    (h : (trimL l).head? = some c) : isSpaceChar c = false := by
  unfold trimL at h
  cases hd : l.dropWhile isSpaceChar with
  | nil => rw [hd] at h; exact absurd h (by simp)
  | cons a t =>
    rw [hd] at h
    have ha : a = c := by simpa using h
    subst ha
    have h2 := List.dropWhile_idempotent isSpaceChar l
    rw [hd] at h2
    by_contra hws
    rw [List.dropWhile_cons, if_pos (by simpa using hws)] at h2
    have h3 := congrArg List.length h2
    have h4 := (@List.dropWhile_suffix Char t isSpaceChar).length_le
    simp at h3
    omega

theorem head_trimSpace_not_space (l : List Char) (c : Char)
    (h : (trimSpace l).head? = some c) : isSpaceChar c = false := by
  have hne : trimSpace l ≠ [] := by intro h0; rw [h0] at h; exact absurd h (by simp)
  have hpre : trimSpace l <+: trimL l := trimR_prefix (trimL l)
  have := prefix_head_eq hpre hne
  exact trimL_head_not l c (this ▸ h)

theorem trim_ne_nil (l : List Char) (c : Char) (h : l.head? = some c)
    (hc : isSpaceChar c = false) : trimSpace l ≠ [] := by
  cases l with
  | nil => exact absurd h (by simp)
  | cons a t =>
    have hac : a = c := by simpa using h
    subst hac
    intro h0
    unfold trimSpace trimL trimR at h0
    rw [List.dropWhile_cons, if_neg (by simp [hc])] at h0
    have h1 : (a :: t).reverse.dropWhile isSpaceChar = [] := by
      simpa using h0
    rw [List.dropWhile_eq_nil_iff] at h1
    have := h1 a (by simp)
    rw [hc] at this
    exact absurd this (by simp)

theorem trimR_idem (y : List Char) : trimR (trimR y) = trimR y := by
  unfold trimR
  rw [List.reverse_reverse, List.dropWhile_idempotent]

theorem trimL_of_head_not {l : List Char} {c : Char} (h : l.head? = some c)
    (hc : isSpaceChar c = false) : trimL l = l := by
  cases l with
  | nil => rfl
  | cons a t =>
    have hac : a = c := by simpa using h
    subst hac
    unfold trimL
    rw [List.dropWhile_cons, if_neg (by simp [hc])]

theorem trim_idem (l : List Char) : trimSpace (trimSpace l) = trimSpace l := by
  by_cases h0 : trimSpace l = []
  · rw [h0]; rfl
  · obtain ⟨c, hc⟩ : ∃ c, (trimSpace l).head? = some c := by
      cases hl : trimSpace l with
      | nil => exact absurd hl h0
      | cons a t => exact ⟨a, by simp⟩
    have hcns := head_trimSpace_not_space l c hc
    show trimR (trimL (trimSpace l)) = trimSpace l
    rw [trimL_of_head_not hc hcns]
    show trimR (trimR (trimL l)) = trimSpace l
    rw [trimR_idem]
    rfl

theorem stripComment_trim (c : List Char) :
    stripComment (trimSpace c) = stripComment c := by
  unfold stripComment
  rw [trim_idem]

theorem strLastIndex_prefix (s sub : List Char) :
    ∀ i, strLastIndex s sub = some i → sub <+: s.drop i := by
  induction s with
  | nil =>
    intro i h
    rw [strLastIndex.eq_1] at h
    by_cases he : sub.isEmpty
    · have h0 : i = 0 := by simp [he] at h; omega
      subst h0
      have : sub = [] := List.isEmpty_iff.mp he
      simp [this]
    · simp [he] at h
  | cons c t ih =>
    intro i h
    rw [show strLastIndex (c :: t) sub =
      (match strLastIndex t sub with
       | some j => some (j + 1)
       | none => if sub.isPrefixOf (c :: t) then some 0 else none) from rfl] at h
    cases hlt : strLastIndex t sub with
    | some j =>
      rw [hlt] at h
      have hij : i = j + 1 := by simpa using h.symm
      subst hij
      simpa using ih j hlt
    | none =>
      rw [hlt] at h
      by_cases hp : sub.isPrefixOf (c :: t)
      · rw [if_pos hp] at h
        have h0 : i = 0 := by simpa using h.symm
        subst h0
        simpa using List.isPrefixOf_iff_prefix.mp hp
      · rw [if_neg hp] at h
        exact absurd h (by simp)


theorem parseTrailingPanic_fst_ne_nil (rest : List Char) (hne : rest ≠ [])
    (htr : trimSpace rest = rest) : (parseTrailingPanic rest).1 ≠ [] := by
  obtain ⟨c, hc⟩ : ∃ c, rest.head? = some c := by
    cases rest with
    | nil => exact absurd rfl hne
    | cons a t => exact ⟨a, by simp⟩
  have hcns : isSpaceChar c = false :=
    head_trimSpace_not_space rest c (by rw [htr]; exact hc)
  have hfb : ((if (" panic".toList).isSuffixOf rest = true then
      (trimSpace (rest.take (rest.length - 6)), ([] : List (List Char)))
    else (rest, [])) : List Char × List (List Char)).1 ≠ [] := by
    by_cases hsf : (" panic".toList).isSuffixOf rest = true
    · rw [if_pos hsf]
      obtain ⟨pre, hpre⟩ : ∃ pre, rest = pre ++ " panic".toList := by
        rcases List.isSuffixOf_iff_suffix.mp hsf with ⟨pre, hp⟩
        exact ⟨pre, hp.symm⟩
      have hprene : pre ≠ [] := by
        intro h0
        rw [h0, List.nil_append] at hpre
        rw [hpre] at hc
        have : c = ' ' := by simpa using hc.symm
        rw [this] at hcns
        exact absurd hcns (by decide)
      have hlen : rest.length - 6 = pre.length := by
        rw [hpre]; simp
      have htake : rest.take (rest.length - 6) = pre := by
        rw [hlen, hpre, List.take_left]
      rw [htake]
      have hhead : pre.head? = some c := by
        rw [hpre] at hc
        cases pre with
        | nil => exact absurd rfl hprene
        | cons a t => simpa using hc
      exact trim_ne_nil pre c hhead hcns
    · rw [if_neg hsf]
      exact hne
  show (parseTrailingPanic rest).1 ≠ []
  unfold parseTrailingPanic
  rw [htr, if_neg hne]
  cases hli : strLastIndex rest needleChars with
  | none =>
    simp only
    exact hfb
  | some idx =>
    have hidx1 : idx ≠ 0 := by
      intro h0
      subst h0
      have hp := strLastIndex_prefix rest needleChars 0 hli
      rw [List.drop_zero] at hp
      rcases hp with ⟨t2, ht2⟩
      rw [← ht2] at hc
      have hceq : c = ' ' := by
        have : (needleChars ++ t2).head? = some ' ' := by simp [needleChars]
        rw [this] at hc
        simpa using hc.symm
      rw [hceq] at hcns
      exact absurd hcns (by decide)
    simp only
    cases hpa : parseActionArgs (rest.drop (idx + 6)) with
    | none => exact hfb
    | some ar =>
      obtain ⟨args, remaining⟩ := ar
      show ((match (if trimSpace remaining = [] then
          some (trimSpace (rest.take idx), args) else none :
            Option (List Char × List (List Char))) with
        | some r => r
        | none =>
          if (" panic".toList).isSuffixOf rest = true then
            (trimSpace (rest.take (rest.length - 6)), ([] : List (List Char)))
          else (rest, [])).1 ≠ [])
      by_cases hrem : trimSpace remaining = []
      · rw [if_pos hrem]
        show trimSpace (rest.take idx) ≠ []
        have hhead : (rest.take idx).head? = some c := by
          cases rest with
          | nil => exact absurd rfl hne
          | cons a t =>
            cases idx with
            | zero => exact absurd rfl hidx1
            | succ k => simpa using hc
        exact trim_ne_nil (rest.take idx) c hhead hcns
      · rw [if_neg hrem]
        exact hfb


theorem stripComment_error_iff (c : List Char) :
    stripComment c = .error () ↔ trimSpace c = "/*/".toList := by
  constructor
  · intro h
    unfold stripComment at h
    by_cases h1 : ("//".toList).isPrefixOf (trimSpace c) = true
    · rw [if_pos h1] at h; exact absurd h (by simp)
    · rw [if_neg h1] at h
      by_cases h2 : (("/*".toList).isPrefixOf (trimSpace c) &&
          ("*/".toList).isSuffixOf (trimSpace c)) = true
      · rw [if_pos h2] at h
        by_cases h3 : 4 ≤ (trimSpace c).length
        · rw [if_pos h3] at h; exact absurd h (by simp)
        · obtain ⟨hpre, hsuf⟩ := Bool.and_eq_true_iff.mp h2
          rw [List.isPrefixOf_iff_prefix] at hpre
          rw [List.isSuffixOf_iff_suffix] at hsuf
          rcases hpre with ⟨u, hu⟩
          cases u with
          | nil =>
            exfalso
            rw [← hu] at hsuf
            simp only [List.append_nil] at hsuf
            exact absurd hsuf (by decide)
          | cons x u2 =>
            cases u2 with
            | nil =>
              rw [← hu] at hsuf ⊢
              rcases hsuf with ⟨t2, ht2⟩
              have h5 := congrArg List.getLast? ht2
              rw [List.getLast?_append] at h5
              simp at h5
              rw [← h5]
              rfl
            | cons y u3 =>
              exfalso
              apply h3
              rw [← hu]
              simp
      · rw [if_neg h2] at h; exact absurd h (by simp)
  · intro h
    rw [← stripComment_trim, h]
    rfl


theorem parseBody_eq_none_iff (s : List Char) :
    parseBody s = none ↔
      (s = [] ∨
        (¬("@require".toList <+: s) ∧ ¬("@must".toList <+: s) ∧
          ¬("@ensure".toList <+: s)) ∨
        ("@require".toList <+: s ∧ trimSpace (s.drop 8) = [])) := by
  unfold parseBody
  by_cases h0 : s = []
  · simp [h0]
  · rw [if_neg h0]
    by_cases h1 : ("@require".toList).isPrefixOf s = true
    · have h1p := List.isPrefixOf_iff_prefix.mp h1
      rw [if_pos h1]
      by_cases h2 : trimSpace (s.drop 8) = []
      · rw [if_pos h2]
        exact iff_of_true rfl (Or.inr (Or.inr ⟨h1p, h2⟩))
      · rw [if_neg h2]
        have h3 : (parseTrailingPanic (trimSpace (s.drop 8))).1 ≠ [] :=
          parseTrailingPanic_fst_ne_nil _ h2 (trim_idem _)
        rw [if_neg h3]
        refine iff_of_false (by simp) ?_
        rintro (h | ⟨hr, _, _⟩ | ⟨_, ht⟩)
        · exact h0 h
        · exact hr h1p
        · exact h2 ht
    · rw [if_neg h1]
      have h1p : ¬ ("@require".toList <+: s) :=
        fun hp => h1 (List.isPrefixOf_iff_prefix.mpr hp)
      by_cases h4 : ("@must".toList).isPrefixOf s = true
      · have h4p := List.isPrefixOf_iff_prefix.mp h4
        rw [if_pos h4]
        refine iff_of_false (by simp) ?_
        rintro (h | ⟨_, hm, _⟩ | ⟨hr, _⟩)
        · exact h0 h
        · exact hm h4p
        · exact h1p hr
      · rw [if_neg h4]
        have h4p : ¬ ("@must".toList <+: s) :=
          fun hp => h4 (List.isPrefixOf_iff_prefix.mpr hp)
        by_cases h5 : ("@ensure".toList).isPrefixOf s = true
        · have h5p := List.isPrefixOf_iff_prefix.mp h5
          rw [if_pos h5]
          refine iff_of_false (by simp) ?_
          rintro (h | ⟨_, _, he⟩ | ⟨hr, _⟩)
          · exact h0 h
          · exact he h5p
          · exact h1p hr
        · rw [if_neg h5]
          have h5p : ¬ ("@ensure".toList <+: s) :=
            fun hp => h5 (List.isPrefixOf_iff_prefix.mpr hp)
          exact iff_of_true rfl (Or.inr (Or.inl ⟨h1p, h4p, h5p⟩))

/-- C4: the null-return rule of ParseDirective.  The run aborts (stripComment
panics on inverted slice bounds) exactly on comments trimming to the three
characters slash-star-slash; otherwise null is returned exactly when the
stripped content is empty, carries no recognized keyword, or is a @require
with an empty body -- a recognized @must or @ensure with an ill-formed body
still yields a non-null default directive. -/
theorem C4_parse_null_rule (c0 : List Char) :
    (parseDirective c0 = .error () ↔ trimSpace c0 = "/*/".toList) ∧
    (∀ s, stripComment c0 = .ok s →
      (parseDirective c0 = .ok none ↔
        (s = [] ∨
          (¬("@require".toList <+: s) ∧ ¬("@must".toList <+: s) ∧
            ¬("@ensure".toList <+: s)) ∨
          ("@require".toList <+: s ∧ trimSpace (s.drop 8) = [])))) := by
  constructor
  · unfold parseDirective
    cases hsc : stripComment c0 with
    | error e =>
      cases e
      constructor
      · intro _; exact (stripComment_error_iff c0).mp hsc
      · intro _; rfl
    | ok s =>
      constructor
      · intro h; exact absurd h (by simp)
      · intro h
        have h6 := (stripComment_error_iff c0).mpr h
        rw [hsc] at h6
        exact absurd h6 (by simp)
  · intro s hs
    unfold parseDirective
    rw [hs]
    rw [← parseBody_eq_none_iff]
    simp


/-- C4 witness: a comment with no directive keyword parses to Go nil without
aborting, by the rule above applied at the concrete stripped content. -/
theorem C4_parse_null_rule_witness :
    parseDirective ("// hello".toList) = .ok none :=
  ((C4_parse_null_rule ("// hello".toList)).2 ("hello".toList) rfl).mpr
    (Or.inr (Or.inl ⟨by decide, by decide, by decide⟩))

/-- C4 counterexample: a recognized @must whose body is the ill-formed text
panic( yields a non-null default directive instead of the null the claim
requires, and the comment slash-star-slash makes ParseDirective abort the
run (a Go runtime slice panic) instead of returning null silently. -/
theorem C4_counterexample :
    parseDirective ("// @must panic(".toList) =
      .ok (some ⟨.must, .panicAct, [], []⟩) ∧
    parseDirective ("/*/".toList) = .error () :=
  ⟨rfl, rfl⟩


/-- strLastIndex finds no occurrence exactly when the needle is a prefix at
no position. -/
theorem strLastIndex_eq_none_iff (s sub : List Char) (hsub : sub ≠ []) :
    strLastIndex s sub = none ↔ ∀ j, ¬ sub <+: s.drop j := by
  induction s with
  | nil =>
    rw [strLastIndex.eq_1]
    have he : sub.isEmpty = false := by simpa [List.isEmpty_iff] using hsub
    simp [he, List.prefix_nil, hsub]
  | cons c t ih =>
    rw [show strLastIndex (c :: t) sub =
      (match strLastIndex t sub with
       | some j => some (j + 1)
       | none => if sub.isPrefixOf (c :: t) then some 0 else none) from rfl]
    cases hlt : strLastIndex t sub with
    | some j =>
      constructor
      · intro h; exact absurd h (by simp)
      · intro h
        have hp := strLastIndex_prefix t sub j hlt
        exact absurd (show sub <+: (c :: t).drop (j + 1) by simpa using hp)
          (h (j + 1))
    | none =>
      by_cases hp : sub.isPrefixOf (c :: t) = true
      · rw [if_pos hp]
        constructor
        · intro h; exact absurd h (by simp)
        · intro h
          exact absurd (List.isPrefixOf_iff_prefix.mp hp)
            (by simpa using h 0)
      · rw [if_neg hp]
        constructor
        · intro _ j
          cases j with
          | zero =>
            intro hc
            exact hp (List.isPrefixOf_iff_prefix.mpr (by simpa using hc))
          | succ m =>
            rw [List.drop_succ_cons]
            exact (ih.mp hlt) m
        · intro _; rfl

/-- strLastIndex computes the last occurrence: the needle is a prefix at the
returned index and at no later index. -/
theorem strLastIndex_eq_some_iff (s sub : List Char) (hsub : sub ≠ []) (i : Nat) :
    strLastIndex s sub = some i ↔
      (sub <+: s.drop i ∧ ∀ j, i < j → ¬ sub <+: s.drop j) := by
  induction s generalizing i with
  | nil =>
    rw [strLastIndex.eq_1]
    have he : sub.isEmpty = false := by simpa [List.isEmpty_iff] using hsub
    simp [he, List.prefix_nil, hsub]
  | cons c t ih =>
    rw [show strLastIndex (c :: t) sub =
      (match strLastIndex t sub with
       | some j => some (j + 1)
       | none => if sub.isPrefixOf (c :: t) then some 0 else none) from rfl]
    cases hlt : strLastIndex t sub with
    | some j =>
      cases i with
      | zero =>
        simp only [Option.some.injEq]
        constructor
        · intro h; omega
        · rintro ⟨h1, h2⟩
          have hj := ((ih j).mp hlt).1
          exact absurd (show sub <+: (c :: t).drop (j + 1) by simpa using hj)
            (h2 (j + 1) (Nat.succ_pos j))
      | succ k =>
        simp only [Option.some.injEq, List.drop_succ_cons]
        constructor
        · intro h
          have hk : j = k := by omega
          subst hk
          obtain ⟨h1, h2⟩ := (ih j).mp hlt
          refine ⟨h1, ?_⟩
          intro m hm hpre
          cases m with
          | zero => omega
          | succ n =>
            rw [List.drop_succ_cons] at hpre
            exact h2 n (by omega) hpre
        · rintro ⟨h1, h2⟩
          have hk : strLastIndex t sub = some k :=
            (ih k).mpr ⟨h1, fun m hm hpre =>
              h2 (m + 1) (by omega) (by simpa using hpre)⟩
          rw [hlt] at hk
          have hjk : j = k := by simpa using hk
          omega
    | none =>
      have hnone := (strLastIndex_eq_none_iff t sub hsub).mp hlt
      by_cases hp : sub.isPrefixOf (c :: t) = true
      · rw [if_pos hp]
        cases i with
        | zero =>
          simp only [Option.some.injEq, List.drop_zero]
          constructor
          · intro _
            refine ⟨List.isPrefixOf_iff_prefix.mp hp, ?_⟩
            intro j hj hpre
            cases j with
            | zero => omega
            | succ m =>
              rw [List.drop_succ_cons] at hpre
              exact hnone m hpre
          · intro _; trivial
        | succ k =>
          simp only [Option.some.injEq, List.drop_succ_cons]
          constructor
          · intro h; omega
          · rintro ⟨h1, _⟩
            exact absurd h1 (hnone k)
      · rw [if_neg hp]
        constructor
        · intro h; exact absurd h (by simp)
        · rintro ⟨h1, _⟩
          cases i with
          | zero =>
            exact absurd (List.isPrefixOf_iff_prefix.mpr (by simpa using h1)) hp
          | succ k =>
            rw [List.drop_succ_cons] at h1
            exact absurd h1 (hnone k)

/-- In a body of the shape expr + " panic(" + inner + ")" whose inner part
has no opening parenthesis, the rightmost textual occurrence of the needle
is exactly the one separating expr from the arguments. -/
theorem strLastIndex_split (expr inner : List Char)
    (hinner : ∀ c ∈ inner, c ≠ '(') :
    strLastIndex (expr ++ needleChars ++ inner ++ [')']) needleChars =
      some expr.length := by
  rw [strLastIndex_eq_some_iff _ _ (by decide)]
  have hassoc : expr ++ needleChars ++ inner ++ [')'] =
      expr ++ (needleChars ++ (inner ++ [')'])) := by
    simp [List.append_assoc]
  constructor
  · rw [hassoc, List.drop_left]
    exact List.prefix_append _ _
  · intro j hj hpre
    obtain ⟨t2, ht2⟩ := hpre
    have h6 : ((expr ++ needleChars ++ inner ++ [')']).drop j)[6]? = some '(' := by
      rw [← ht2]
      have hneedle : needleChars = [' ', 'p', 'a', 'n', 'i', 'c', '('] := by decide
      rw [hneedle]
      simp
    rw [List.getElem?_drop] at h6
    have hrw : expr ++ needleChars ++ inner ++ [')'] =
        (expr ++ needleChars) ++ (inner ++ [')']) := by
      simp [List.append_assoc]
    rw [hrw] at h6
    rw [List.getElem?_append_right (by simp [needleChars]; omega)] at h6
    have hmem : '(' ∈ inner ++ [')'] := by
      exact List.getElem?_mem h6
    rcases List.mem_append.mp hmem with hin | hin
    · exact (hinner '(' hin) rfl
    · simp at hin

/-- argsScan on an argument text free of parentheses and double quotes
consumes it up to the closing parenthesis. -/
theorem argsScan_clean (inner : List Char)
    (h : ∀ c ∈ inner, c ≠ '(' ∧ c ≠ ')' ∧ c ≠ '"') :
    ∀ acc, argsScan (inner ++ [')']) 1 false false acc = some (acc ++ inner, []) := by
  induction inner with
  | nil =>
    intro acc
    show argsScan [')'] 1 false false acc = some (acc ++ [], [])
    rw [argsScan]
    simp
  | cons c t ih =>
    intro acc
    obtain ⟨hc1, hc2, hc3⟩ := h c (by simp)
    show argsScan (c :: (t ++ [')'])) 1 false false acc = _
    rw [argsScan]
    simp only [if_neg hc1, if_neg hc2, if_neg hc3, Bool.false_eq_true, if_false]
    rw [ih (fun d hd => h d (by simp [hd])) (acc ++ [c])]
    simp

/-- C5: the split as the code actually performs it.  parseTrailingPanic
splits at the rightmost textual occurrence of " panic(" (strings.LastIndex;
the search itself has no top-level awareness); on every body of the shape
expr + " panic(" + inner + ")" whose inner part is free of parentheses and
double quotes that occurrence is top-level and the split succeeds with the
text before it as the expression and the top-level comma split of inner as
the custom panic arguments. -/
theorem C5_trailing_panic_split (expr inner : List Char)
    (hexpr : expr ≠ []) (htr : trimSpace expr = expr)
    (hinner : ∀ c ∈ inner, c ≠ '(' ∧ c ≠ ')' ∧ c ≠ '"') :
    parseTrailingPanic (expr ++ needleChars ++ inner ++ [')']) =
      (expr, splitTopLevel inner) := by
  obtain ⟨c, hc⟩ : ∃ c, expr.head? = some c := by
    cases expr with
    | nil => exact absurd rfl hexpr
    | cons a t => exact ⟨a, rfl⟩
  have hcs : isSpaceChar c = false :=
    head_trimSpace_not_space expr c (by rw [htr]; exact hc)
  set s : List Char := expr ++ needleChars ++ inner ++ [')'] with hs
  have hshead : s.head? = some c := by
    rw [hs]
    cases expr with
    | nil => exact absurd rfl hexpr
    | cons a t => simpa using hc
  have htl : trimL s = s := trimL_of_head_not hshead hcs
  have htrR : trimR s = s := by
    unfold trimR
    have : s.reverse = ')' :: (expr ++ needleChars ++ inner).reverse := by
      rw [hs]; simp
    rw [this, List.dropWhile_cons, if_neg (by decide)]
    rw [← this, List.reverse_reverse]
  have hts : trimSpace s = s := by
    show trimR (trimL s) = s
    rw [htl, htrR]
  have hne : s ≠ [] := by
    rw [hs]; simp
  rw [parseTrailingPanic]
  simp only [hts, if_neg hne]
  rw [strLastIndex_split expr inner (fun d hd => (hinner d hd).1)]
  show (match
      (match parseActionArgs (List.drop (expr.length + 6) s) with
       | some (args, remaining) =>
         if trimSpace remaining = [] then some (trimSpace (List.take expr.length s), args)
         else none
       | none => none) with
    | some r => r
    | none =>
      if (" panic".toList).isSuffixOf s then (trimSpace (List.take (s.length - 6) s), [])
      else (s, [])) = (expr, splitTopLevel inner)
  have hdrop : s.drop (expr.length + 6) = '(' :: (inner ++ [')']) := by
    have : s = (expr ++ " panic".toList) ++ ('(' :: (inner ++ [')'])) := by
      rw [hs]; simp [needleChars]
    rw [this]
    have hlen : (expr ++ " panic".toList).length = expr.length + 6 := by simp
    rw [← hlen, List.drop_left]
  rw [hdrop]
  rw [show parseActionArgs ('(' :: (inner ++ [')'])) =
    (match argsScan (inner ++ [')']) 1 false false [] with
     | some (inner2, rest2) => some (splitTopLevel inner2, rest2)
     | none => none) from rfl]
  rw [argsScan_clean inner hinner []]
  have htake : s.take expr.length = expr := by
    have h9 : s = expr ++ (needleChars ++ inner ++ [')']) := by
      rw [hs]; simp
    rw [h9, List.take_left]
  show (trimSpace (List.take expr.length s), splitTopLevel ([] ++ inner)) =
    (expr, splitTopLevel inner)
  rw [htake, htr, List.nil_append]

/-- C5 witness: the split theorem applied at the body "x > 0 panic(msg)". -/
theorem C5_trailing_panic_split_witness :
    "x > 0".toList ≠ [] ∧ trimSpace ("x > 0".toList) = "x > 0".toList ∧
    (∀ c ∈ "msg".toList, c ≠ '(' ∧ c ≠ ')' ∧ c ≠ '"') ∧
    splitTopLevel ("msg".toList) = ["msg".toList] ∧
    parseTrailingPanic ("x > 0".toList ++ needleChars ++ "msg".toList ++ [')']) =
      ("x > 0".toList, splitTopLevel ("msg".toList)) :=
  ⟨by decide, by decide, by decide, by decide,
    C5_trailing_panic_split ("x > 0".toList) ("msg".toList) (by decide) (by decide)
      (by decide)⟩

/-- C5 counterexample: in the body x panic(" panic(") the rightmost
top-level occurrence of the needle is at index 1 (the later one sits inside
a double-quoted string), yet the code searches textually, finds index 9,
fails to parse the arguments there, and returns the whole body as the
expression with no custom arguments instead of splitting at index 1 as the
claim mandates. -/
theorem C5_counterexample :
    Spec.specRightmostTopLevel ("x panic(\" panic(\")".toList) = some 1 ∧
    strLastIndex ("x panic(\" panic(\")".toList) needleChars = some 9 ∧
    parseTrailingPanic ("x panic(\" panic(\")".toList) =
      ("x panic(\" panic(\")".toList, []) :=
  ⟨by decide, by decide, by decide⟩

end Inco
